import Mathlib

/-!
Verification development for the Ludo client repository.

The repository contains a local reference implementation of the game rules
engine (the `useLudoGame` React hook) and a WebSocket session layer
(`gameSocket.ts`, present in two variants in the same file).  This file gives
a shallow embedding of both and proves the behavioural claims about them.

Modelling notes:
* React `useState` state is collected into a `GameState` record; each engine
  operation becomes a pure function from state to state.  The transient
  animation flag `isRolling` is modelled at its settled (post-timeout) value,
  and the presentation-only `gameMessage` string is omitted: no game logic
  reads it.
* `rollDice` takes the rolled value as an argument (the source draws it from
  `Math.random`); the legal range 1..6 is imposed where a claim needs it.
* JavaScript out-of-bounds array reads give `undefined`, and a subsequent
  property access throws; operations that can throw are embedded in
  `Except Unit`, with `Except.error ()` standing for the thrown exception
  (the React state is untouched at every throw site).
* The board data module (`ludoData.ts`) is not part of the repository
  sources; only its consumers are.  Its record shapes are modelled from the
  spec, and all engine functions are parameterised by the board.
-/

/-- Modelled from the spec: the Board Model's cell record (the `ludoData.ts`
data file is absent from the repository; the spec describes cells carrying a
2-D board position in percent coordinates plus an `isSafe` flag).  The percent
coordinates are modelled as rationals. -/
structure Position where
  x : Rat
  y : Rat
  isSafe : Bool
deriving DecidableEq

/-- Modelled from the spec: per-colour board data, an ordered path cell
sequence plus base slots (the `ui` fields of `ludoData.ts` are rendering-only
and not modelled). -/
structure ColorData where
  path : List Position
  base : List Position
deriving DecidableEq

/-- The four player colours. -/
inductive PlayerColor where
  | red
  | green
  | yellow
  | blue
deriving DecidableEq

/-- A board assigns each colour its path and base data (`LUDO_DATA`). -/
def Board : Type := PlayerColor → ColorData

/-- Token state as in `ludoData.ts` consumers: id, colour, path index
(`-1` = in base) and the finished flag. -/
structure TokenState where
  id : Nat
  color : PlayerColor
  pathIndex : Int
  isFinished : Bool
deriving DecidableEq

/-- The fixed rotation order `PLAYERS` of the engine. -/
def PLAYERS : List PlayerColor :=
  [PlayerColor.red, PlayerColor.green, PlayerColor.yellow, PlayerColor.blue]

/-- The engine's mutable state (the `useState` cells of `useLudoGame`). -/
structure GameState where
  tokens : PlayerColor → List TokenState
  currentPlayer : PlayerColor
  diceValue : Nat
  isRolling : Bool
  hasRolled : Bool
  selectedToken : Option Nat
  winner : Option PlayerColor

/-- `initializeTokens`: four tokens per colour, all in base. -/
def initTokens : PlayerColor → List TokenState := fun color =>
  (List.range 4).map (fun i => { id := i, color := color, pathIndex := -1, isFinished := false })

/-- The initial engine state (also the state `resetGame` restores). -/
def initState : GameState where
  tokens := initTokens
  currentPlayer := PlayerColor.red
  diceValue := 1
  isRolling := false
  hasRolled := false
  selectedToken := none
  winner := none

/-- `resetGame` restores every state cell to its initial value. -/
def resetGame : GameState := initState

/-- JavaScript array indexing `path[i]` for a possibly negative index:
out-of-range reads give `undefined` (modelled as `none`). -/
def pathAt (l : List Position) (i : Int) : Option Position :=
  if i < 0 then none else l.get? i.toNat

/-- `getTokenPosition`: finished tokens render at the last path cell, based
tokens at their base slot, on-board tokens at their path cell.  `none` models
a JavaScript `undefined` from an out-of-range read. -/
def getTokenPosition (board : Board) (token : TokenState) : Option Position :=
  if token.isFinished then
    (board token.color).path.get? ((board token.color).path.length - 1)
  else if token.pathIndex = -1 then
    (board token.color).base.get? token.id
  else
    pathAt (board token.color).path token.pathIndex

/-- `canMoveToken`: a finished token cannot move; a based token needs a 6;
otherwise the move must not overshoot the last path index. -/
def canMoveToken (board : Board) (token : TokenState) (diceVal : Nat) : Bool :=
  if token.isFinished then false
  else if token.pathIndex = -1 then diceVal == 6
  else decide (token.pathIndex + (diceVal : Int) ≤ ((board token.color).path.length : Int) - 1)

/-- `getMovableTokens`: ids of the colour's tokens that can move. -/
def getMovableTokens (board : Board) (tokens : PlayerColor → List TokenState)
    (color : PlayerColor) (diceVal : Nat) : List Nat :=
  ((tokens color).filter (fun token => canMoveToken board token diceVal)).map (fun token => token.id)

/-- `Math.abs`, written out so that it evaluates. -/
def ratAbs (x : Rat) : Rat :=
  if x < 0 then -x else x

/-- The position comparison of `checkForCapture` and of the capture update:
`Math.abs(dx) < 0.1 && Math.abs(dy) < 0.1`. -/
def closeTo (p q : Position) : Bool :=
  decide (ratAbs (p.x - q.x) < Rat.divInt 1 10) &&
    decide (ratAbs (p.y - q.y) < Rat.divInt 1 10)

/-- One token's clause of the capture scan: on the board, not finished, and
rendered within tolerance of the given position. -/
def posMatches (board : Board) (token : TokenState) (position : Position) : Bool :=
  match getTokenPosition board token with
  | some tp => closeTo tp position
  | none => false

/-- Whether one colour has an on-board, non-finished token at the position
(the inner loop of `checkForCapture`, also the condition mutated over in the
capture branch of `moveToken`). -/
def colorHasTokenAt (board : Board) (tokens : PlayerColor → List TokenState)
    (c : PlayerColor) (position : Position) : Bool :=
  (tokens c).any (fun token =>
    !(token.pathIndex == -1) && !token.isFinished && posMatches board token position)

/-- `checkForCapture`: `null` on a safe cell, else the first other colour in
`PLAYERS` order with an on-board non-finished token at the position. -/
def checkForCapture (board : Board) (tokens : PlayerColor → List TokenState)
    (color : PlayerColor) (position : Position) : Option PlayerColor :=
  if position.isSafe then none
  else PLAYERS.find? (fun c => !(c == color) && colorHasTokenAt board tokens c position)

/-- The rotation step of `nextTurn`: `PLAYERS[(PLAYERS.indexOf(c) + 1) % 4]`. -/
def nextPlayer (c : PlayerColor) : PlayerColor :=
  PLAYERS.getD ((PLAYERS.indexOf c + 1) % 4) PlayerColor.red

/-- `nextTurn(gotSix)`: rotate the current player unless a bonus was earned;
either way clear `hasRolled` and the selection. -/
def nextTurn (s : GameState) (gotSix : Bool) : GameState :=
  if !gotSix then
    { s with currentPlayer := nextPlayer s.currentPlayer, hasRolled := false,
             selectedToken := none }
  else
    { s with hasRolled := false, selectedToken := none }

/-- `rollDice` with the drawn value made explicit, settled after its inner
timeouts: reject when rolling, already rolled, or the game is over; otherwise
record the value, and either auto-advance the turn (no movable token),
auto-select the unique movable token, or wait for a selection. -/
def rollDice (board : Board) (s : GameState) (value : Nat) : GameState :=
  if s.isRolling || s.hasRolled || s.winner.isSome then s
  else
    let movable := getMovableTokens board s.tokens s.currentPlayer value
    let s1 : GameState :=
      { s with diceValue := value, isRolling := false, hasRolled := true,
               selectedToken := none }
    match movable with
    | [] => nextTurn s1 false
    | [t] => { s1 with selectedToken := some t }
    | _ => s1

/-- The destination index computed by `moveToken` (lines 141-146): `0` when
leaving base, else current index plus dice. -/
def moveDest (token : TokenState) (diceVal : Nat) : Int :=
  if token.pathIndex = -1 then 0 else token.pathIndex + (diceVal : Int)

/-- The mover-side token update of `moveToken`: the token with the moved id
gets the new index and finish flag. -/
def moverUpdate (tokenId : Nat) (newPathIndex : Int) (isFinishing : Bool)
    (l : List TokenState) : List TokenState :=
  l.map (fun t =>
    if t.id == tokenId then { t with pathIndex := newPathIndex, isFinished := isFinishing }
    else t)

/-- The capture update of `moveToken`: each on-board, non-finished token of
the captured colour standing at the destination is sent back to base. -/
def captureReset (board : Board) (newPosition : Position)
    (l : List TokenState) : List TokenState :=
  l.map (fun t =>
    if t.pathIndex == -1 || t.isFinished then t
    else if posMatches board t newPosition then { t with pathIndex := -1 }
    else t)

/-- Normal form of an accepted move, part 1: the finishing test of
`moveToken` as a function of the fetched token (`newPathIndex ==
path.length - 1`). -/
def moveFin (board : Board) (s : GameState) (t : TokenState) : Bool :=
  moveDest t s.diceValue == ((board s.currentPlayer).path.length : Int) - 1

/-- Normal form of an accepted move, part 2: the `capturedColor` value of
`moveToken` (capture is only checked on non-finishing moves). -/
def moveCaptured (board : Board) (s : GameState) (t : TokenState) (P : Position) :
    Option PlayerColor :=
  if moveFin board s t then none
  else checkForCapture board s.tokens s.currentPlayer P

/-- Normal form of an accepted move, part 3: the updated token map. -/
def moveNewTokens (board : Board) (s : GameState) (tid : Nat) (t : TokenState) (P : Position) :
    PlayerColor → List TokenState := fun c =>
  if c = s.currentPlayer then
    moverUpdate tid (moveDest t s.diceValue) (moveFin board s t) (s.tokens c)
  else if moveCaptured board s t P = some c then captureReset board P (s.tokens c)
  else s.tokens c

/-- Normal form of an accepted move, part 4: the win test (evaluated, as in
the source, over the pre-move tokens with the moved token compensated). -/
def moveAllFinished (board : Board) (s : GameState) (tid : Nat) (t : TokenState) : Bool :=
  (s.tokens s.currentPlayer).all
    (fun tk => tk.isFinished || (tk.id == tid && moveFin board s t))

/-- Normal form of an accepted move, part 5: the bonus flag handed to
`nextTurn` (`diceValue === 6 || gotBonus`). -/
def moveBonus (board : Board) (s : GameState) (t : TokenState) (P : Position) : Bool :=
  s.diceValue == 6 ||
    ((match moveCaptured board s t P with
      | some cc => colorHasTokenAt board s.tokens cc P
      | none => false) || moveFin board s t)

/-- Normal form of an accepted move: the state `moveToken` returns once the
guards accept (the lemma `moveToken_run` shows `moveToken` reduces to it). -/
def moveResult (board : Board) (s : GameState) (tid : Nat) (t : TokenState) (P : Position) :
    GameState :=
  if moveAllFinished board s tid t then
    { s with tokens := moveNewTokens board s tid t P, winner := some s.currentPlayer }
  else
    nextTurn { s with tokens := moveNewTokens board s tid t P } (moveBonus board s t P)

/-- `moveToken(tokenId)`, settled after its timeouts.  `Except.error ()`
models the TypeError a JavaScript `undefined` array read would throw (the
React state is untouched at each such site); `Except.ok` returns the new
state (equal to the input state on a rejected call). -/
def moveToken (board : Board) (s : GameState) (tokenId : Nat) : Except Unit GameState :=
  if !s.hasRolled || s.winner.isSome then Except.ok s
  else
    match (s.tokens s.currentPlayer).get? tokenId with
    | none => Except.error ()
    | some token =>
      if !canMoveToken board token s.diceValue then Except.ok s
      else
        match pathAt (board s.currentPlayer).path (moveDest token s.diceValue) with
        | none => Except.error ()
        | some newPosition => Except.ok (moveResult board s tokenId token newPosition)

/-- The states reachable by the engine: the initial state, closed under
rolls of a legal dice value and under (accepted or rejected) moves. -/
inductive Reachable (board : Board) : GameState → Prop where
  | init : Reachable board initState
  | roll {s : GameState} {d : Nat} : Reachable board s → 1 ≤ d → d ≤ 6 →
      Reachable board (rollDice board s d)
  | move {s s' : GameState} {tid : Nat} : Reachable board s →
      moveToken board s tid = Except.ok s' → Reachable board s'

/-- Structural well-formedness of a game state: each colour owns four
tokens whose ids equal their indices and whose colour field matches; every
path coordinate lies in `[-1, N-1]`; and the finished flag holds exactly at
the last path index. -/
structure WFState (board : Board) (s : GameState) : Prop where
  len : ∀ c, (s.tokens c).length = 4
  ids : ∀ c i t, (s.tokens c).get? i = some t → t.id = i
  colors : ∀ c i t, (s.tokens c).get? i = some t → t.color = c
  lb : ∀ c i t, (s.tokens c).get? i = some t → -1 ≤ t.pathIndex
  ub : ∀ c i t, (s.tokens c).get? i = some t →
    t.pathIndex ≤ ((board c).path.length : Int) - 1
  fin : ∀ c i t, (s.tokens c).get? i = some t →
    (t.isFinished = true ↔ t.pathIndex = ((board c).path.length : Int) - 1)

/-- Modelled from the spec: geometric sanity of the board data (the
`ludoData.ts` file is absent).  Paths are nonempty; distinct physical cells
are further apart than the 0.1-percent comparison tolerance, so the
tolerance comparison identifies tokens on the same physical cell and equal
cells agree on their `isSafe` flag; and each colour's final home cell is
private: no other colour's non-final path cell shares its position. -/
structure BoardGeom (board : Board) : Prop where
  nonempty : ∀ c, 0 < (board c).path.length
  cellSep : ∀ c1 i1 c2 i2 p q, (board c1).path.get? i1 = some p →
    (board c2).path.get? i2 = some q → closeTo p q = true → p = q
  homePrivate : ∀ c1 c2, c1 ≠ c2 → ∀ p i q,
    (board c1).path.get? ((board c1).path.length - 1) = some p →
    (board c2).path.get? i = some q → i + 1 < (board c2).path.length →
    closeTo p q = false

/-- At most one colour occupies any non-safe cell: whenever on-board,
non-finished tokens of two different colours stand within the comparison
tolerance of each other, the cell is safe.  This is an invariant of
reachable states. -/
def PairINV (board : Board) (s : GameState) : Prop :=
  ∀ c1 c2 i1 i2 t1 t2 q1 q2, c1 ≠ c2 →
    (s.tokens c1).get? i1 = some t1 → (s.tokens c2).get? i2 = some t2 →
    t1.pathIndex ≠ -1 → t1.isFinished = false →
    t2.pathIndex ≠ -1 → t2.isFinished = false →
    getTokenPosition board t1 = some q1 → getTokenPosition board t2 = some q2 →
    closeTo q1 q2 = true → q1.isSafe = true

/-- First cell of the witness board. -/
def cellA : Position := { x := 0, y := 0, isSafe := false }

/-- Second cell of the witness board. -/
def cellB : Position := { x := 50, y := 0, isSafe := false }

/-- A small concrete board used as input in witnesses: every colour runs the
same two-cell path (cells 50 board-percent apart), and base slots sit away
from the path. -/
def sampleBoard : Board := fun _ =>
  { path := [cellA, cellB]
    base := [ { x := 90, y := 10, isSafe := false }, { x := 90, y := 20, isSafe := false },
              { x := 90, y := 30, isSafe := false }, { x := 90, y := 40, isSafe := false } ] }

/-- Witness token: token 0 of red, in base. -/
def witTok : TokenState :=
  { id := 0, color := PlayerColor.red, pathIndex := -1, isFinished := false }

/-- Witness state: red has rolled a 6 and not yet moved. -/
def rolledState : GameState :=
  { initState with hasRolled := true, diceValue := 6 }

/- ------------------------------------------------------------------ -/
/- Session layer (gameSocket.ts, two variants in one file)            -/
/- ------------------------------------------------------------------ -/

/-- Connection states of both socket variants (the second variant adds the
authenticating/joining/in-game/error states). -/
inductive ConnectionState where
  | disconnected
  | connecting
  | connected
  | authenticating
  | joining
  | in_game
  | reconnecting
  | error
deriving DecidableEq

/-- Client-to-server intents (`ClientMessage`). -/
inductive ClientMessage where
  | AUTH (token : String)
  | CREATE_ROOM
  | JOIN_ROOM (roomCode : String)
  | ROLL_DICE
  | MOVE_TOKEN (tokenIndex : Int)
deriving DecidableEq

/-- `validateRoomCode`: 4 to 6 characters, each matching `[A-Z0-9]`. -/
def validateRoomCode (roomCode : String) : Bool :=
  decide (4 ≤ roomCode.length) && decide (roomCode.length ≤ 6) &&
    roomCode.data.all (fun ch =>
      (decide ('A' ≤ ch) && decide (ch ≤ 'Z')) || (decide ('0' ≤ ch) && decide (ch ≤ '9')))

/-- `validateTokenIndex`: an integer in `[0, 3]` (`Number.isInteger` always
holds in the integer model). -/
def validateTokenIndex (tokenIndex : Int) : Bool :=
  decide (0 ≤ tokenIndex) && decide (tokenIndex ≤ 3)

/-- Game phases of the server snapshot type. -/
inductive GamePhase where
  | WAITING
  | ROLL
  | MOVE
  | END
deriving DecidableEq

/-- A well-formed full-state snapshot, reduced to the fields the dispatch
logic inspects (`data.roomCode && data.phase`). -/
structure ServerSnapshot where
  roomCode : String
  phase : GamePhase
deriving DecidableEq

/-- Parsed server-to-client messages as the second variant dispatches them;
`malformed` models a JSON parse failure (caught and ignored). -/
inductive ServerMessage where
  | AUTH_SUCCESS (userId : String)
  | stateMsg (snapshot : ServerSnapshot)
  | ERROR (message : String)
  | malformed
deriving DecidableEq

/-- Transport events delivered to a socket: the WebSocket opening (carrying
the session token the open handler fetches, `none` when the user has no
session), a server message, the transport closing, and the reconnect timer
firing. -/
inductive SocketEvent where
  | openEv (token : Option String)
  | msgEv (m : ServerMessage)
  | closeEv
  | timerEv
deriving DecidableEq

/-- Observable side effects of one handler run: messages sent on the wire,
connection-state callback values, user-visible error strings, state-update
callback count, and whether the auth-required callback fired. -/
structure SocketOutput where
  sent : List ClientMessage := []
  connChanges : List ConnectionState := []
  uiErrors : List String := []
  stateUpdates : Nat := 0
  authRequired : Bool := false
deriving DecidableEq

/-- The empty side-effect record. -/
def noOutput : SocketOutput := {}

/-- Concatenation of the side effects of two consecutive handler pieces. -/
def mergeOutput (a b : SocketOutput) : SocketOutput :=
  { sent := a.sent ++ b.sent, connChanges := a.connChanges ++ b.connChanges,
    uiErrors := a.uiErrors ++ b.uiErrors, stateUpdates := a.stateUpdates + b.stateUpdates,
    authRequired := a.authRequired || b.authRequired }

/-- `maxReconnectAttempts`, identical in both variants. -/
def maxReconnectAttempts : Nat := 5

namespace GameSocketV1

/-- Fields of the first (legacy) `GameSocket` variant: the WebSocket handle
(existence and OPEN readiness), room code, stored auth token, reconnect
attempt counter and pending reconnect timer (delay in ms). -/
structure State where
  wsExists : Bool
  wsOpen : Bool
  roomCode : Option String
  authToken : Option String
  reconnectAttempts : Nat
  reconnectTimer : Option Nat
deriving DecidableEq

/-- A freshly constructed first-variant socket. -/
def init : State :=
  { wsExists := false, wsOpen := false, roomCode := none, authToken := none,
    reconnectAttempts := 0, reconnectTimer := none }

/-- `send` of the first variant: transmit only on an OPEN socket, no
validation. -/
def send (s : State) (m : ClientMessage) : List ClientMessage :=
  if s.wsOpen then [m] else []

/-- `disconnect` of the first variant. -/
def disconnect (s : State) : State × SocketOutput :=
  let s1 := { s with reconnectTimer := none }
  let s2 := if s1.wsExists then
      { s1 with reconnectAttempts := maxReconnectAttempts, wsExists := false, wsOpen := false }
    else s1
  ({ s2 with roomCode := none, authToken := none },
   { noOutput with connChanges := [ConnectionState.disconnected] })

/-- `createConnection` of the first variant: open a fresh (not yet OPEN)
WebSocket when a room code is set. -/
def createConnection (s : State) : State × SocketOutput :=
  if s.roomCode.isNone then (s, noOutput)
  else ({ s with wsExists := true, wsOpen := false },
    { noOutput with connChanges := [ConnectionState.connecting] })

/-- `connect` of the first variant. -/
def connect (s : State) (roomCode : String) (authToken : Option String) :
    State × SocketOutput :=
  let p1 := disconnect s
  let s2 :=
    { p1.1 with roomCode := some roomCode.toUpper, authToken := authToken,
                reconnectAttempts := 0 }
  let p2 := createConnection s2
  (p2.1, mergeOutput p1.2 p2.2)

/-- `handleDisconnect` of the first variant: bounded auto-reconnect with
delay `2000 * attempt`, else terminal disconnect with a user-visible
message once the attempts are exhausted. -/
def handleDisconnect (s : State) : State × SocketOutput :=
  if s.roomCode.isSome && decide (s.reconnectAttempts < maxReconnectAttempts) then
    ({ s with reconnectAttempts := s.reconnectAttempts + 1,
              reconnectTimer := some (2000 * (s.reconnectAttempts + 1)) },
     { noOutput with connChanges := [ConnectionState.reconnecting] })
  else
    (s,
     { noOutput with connChanges := [ConnectionState.disconnected],
                     uiErrors := if decide (maxReconnectAttempts ≤ s.reconnectAttempts) then
                       ["Connection lost. Please rejoin the game."] else [] })

/-- One transport event of the first variant.  On open it reports
`connected`, zeroes the attempt counter, and immediately sends `AUTH` (when
a token is stored) followed by `JOIN_ROOM` — without waiting for any server
response.  Every parsed message is handed to the state-update callback. -/
def step (s : State) : SocketEvent → State × SocketOutput
  | SocketEvent.openEv _ =>
    let s1 := { s with wsOpen := true, reconnectAttempts := 0 }
    let authMsgs := match s1.authToken with
      | some tok => send s1 (ClientMessage.AUTH tok)
      | none => []
    let joinMsgs := match s1.roomCode with
      | some rc => send s1 (ClientMessage.JOIN_ROOM rc)
      | none => []
    (s1,
     { noOutput with sent := authMsgs ++ joinMsgs,
                     connChanges := [ConnectionState.connected] })
  | SocketEvent.msgEv ServerMessage.malformed => (s, noOutput)
  | SocketEvent.msgEv _ => (s, { noOutput with stateUpdates := 1 })
  | SocketEvent.closeEv => handleDisconnect { s with wsOpen := false }
  | SocketEvent.timerEv => createConnection { s with reconnectTimer := none }

end GameSocketV1

/-- Substring search used by the second variant's error dispatch. -/
def strContains (hay needle : String) : Bool :=
  decide (1 < (hay.splitOn needle).length)

/-- Whether a server error message is auth-related (second variant). -/
def authErrorRelated (msg : String) : Bool :=
  strContains msg.toLower ("auth") || strContains msg.toLower ("unauthorized")

namespace GameSocketV2

/-- Fields of the second `GameSocket` variant, adding the authentication
flag and the retained pending room code. -/
structure State where
  wsExists : Bool
  wsOpen : Bool
  roomCode : Option String
  reconnectAttempts : Nat
  reconnectTimer : Option Nat
  isAuthenticated : Bool
  pendingRoomCode : Option String
deriving DecidableEq

/-- A freshly constructed second-variant socket. -/
def init : State :=
  { wsExists := false, wsOpen := false, roomCode := none, reconnectAttempts := 0,
    reconnectTimer := none, isAuthenticated := false, pendingRoomCode := none }

/-- `send` of the second variant: transmit only on an OPEN socket, with
format validation of room codes and token indices. -/
def send (s : State) (m : ClientMessage) : List ClientMessage × List String :=
  if s.wsOpen then
    match m with
    | ClientMessage.JOIN_ROOM code =>
      if validateRoomCode code then ([m], [])
      else ([], ["Invalid room code format. Must be 4-6 alphanumeric characters."])
    | ClientMessage.MOVE_TOKEN i =>
      if validateTokenIndex i then ([m], [])
      else ([], ["Invalid token selection."])
    | _ => ([m], [])
  else ([], [])

/-- `disconnect` of the second variant. -/
def disconnect (s : State) : State × SocketOutput :=
  let s1 := { s with reconnectTimer := none }
  let s2 := if s1.wsExists then
      { s1 with reconnectAttempts := maxReconnectAttempts, wsExists := false, wsOpen := false }
    else s1
  ({ s2 with roomCode := none, pendingRoomCode := none, isAuthenticated := false },
   { noOutput with connChanges := [ConnectionState.disconnected] })

/-- `createConnection` of the second variant. -/
def createConnection (s : State) : State × SocketOutput :=
  if s.roomCode.isNone then (s, noOutput)
  else ({ s with wsExists := true, wsOpen := false },
    { noOutput with connChanges := [ConnectionState.connecting] })

/-- `connect` of the second variant. -/
def connect (s : State) (roomCode : String) : State × SocketOutput :=
  let p1 := disconnect s
  let s2 :=
    { p1.1 with roomCode := some roomCode.toUpper,
                pendingRoomCode := some roomCode.toUpper,
                reconnectAttempts := 0, isAuthenticated := false }
  let p2 := createConnection s2
  (p2.1, mergeOutput p1.2 p2.2)

/-- `handleDisconnect` of the second variant: identical retry logic to the
first variant, additionally clearing the authentication flag. -/
def handleDisconnect (s : State) : State × SocketOutput :=
  let s1 := { s with isAuthenticated := false }
  if s1.roomCode.isSome && decide (s1.reconnectAttempts < maxReconnectAttempts) then
    ({ s1 with reconnectAttempts := s1.reconnectAttempts + 1,
               reconnectTimer := some (2000 * (s1.reconnectAttempts + 1)) },
     { noOutput with connChanges := [ConnectionState.reconnecting] })
  else
    (s1,
     { noOutput with connChanges := [ConnectionState.disconnected],
                     uiErrors := if decide (maxReconnectAttempts ≤ s1.reconnectAttempts) then
                       ["Connection lost. Please rejoin the game."] else [] })

/-- One transport event of the second variant.  On open it reports
`authenticating`, clears the auth flag and sends only `AUTH` (disconnecting
with an auth-required escalation if no session token exists).  `JOIN_ROOM`
is sent exclusively inside the `AUTH_SUCCESS` branch; a snapshot switches to
`in_game` and replaces the client state; errors surface to the UI. -/
def step (s : State) : SocketEvent → State × SocketOutput
  | SocketEvent.openEv tok =>
    let s1 := { s with wsOpen := true, isAuthenticated := false }
    match tok with
    | none =>
      let p2 := disconnect s1
      (p2.1,
       { p2.2 with connChanges := ConnectionState.authenticating :: p2.2.connChanges,
                   uiErrors := "Not authenticated. Please log in." :: p2.2.uiErrors,
                   authRequired := true })
    | some t =>
      (s1,
       { noOutput with connChanges := [ConnectionState.authenticating],
                       sent := (send s1 (ClientMessage.AUTH t)).1,
                       uiErrors := (send s1 (ClientMessage.AUTH t)).2 })
  | SocketEvent.msgEv (ServerMessage.AUTH_SUCCESS _) =>
    let s1 := { s with isAuthenticated := true }
    match s1.pendingRoomCode with
    | some p =>
      (s1,
       { noOutput with connChanges := [ConnectionState.joining],
                       sent := (send s1 (ClientMessage.JOIN_ROOM p)).1,
                       uiErrors := (send s1 (ClientMessage.JOIN_ROOM p)).2 })
    | none => (s1, noOutput)
  | SocketEvent.msgEv (ServerMessage.stateMsg _) =>
    (s, { noOutput with connChanges := [ConnectionState.in_game], stateUpdates := 1 })
  | SocketEvent.msgEv (ServerMessage.ERROR msg) =>
    (s,
     { noOutput with connChanges := [ConnectionState.error], uiErrors := [msg],
                     authRequired := authErrorRelated msg })
  | SocketEvent.msgEv ServerMessage.malformed => (s, noOutput)
  | SocketEvent.closeEv =>
    handleDisconnect { s with wsOpen := false, isAuthenticated := false }
  | SocketEvent.timerEv => createConnection { s with reconnectTimer := none }

end GameSocketV2

/-- A second-variant socket mid-session after three reconnect attempts
(used as a concrete input). -/
def v2AtThree : GameSocketV2.State :=
  { wsExists := true, wsOpen := true, roomCode := some ("ABCD"), reconnectAttempts := 3,
    reconnectTimer := none, isAuthenticated := true, pendingRoomCode := some ("ABCD") }

/-- A concrete well-formed snapshot (used as a concrete input). -/
def snapR : ServerSnapshot := { roomCode := "ABCD", phase := GamePhase.ROLL }

/- ------------------------------------------------------------------ -/
/- Theorems                                                           -/
/- ------------------------------------------------------------------ -/

/-- Every colour is listed in the fixed rotation order. -/
lemma mem_PLAYERS (c : PlayerColor) : c ∈ PLAYERS := by
  cases c <;> decide

/-- The rotation successor of a colour differs from it. -/
lemma nextPlayer_ne (c : PlayerColor) : nextPlayer c ≠ c := by
  cases c <;> decide

/-- A token accepted by `canMoveToken` is not finished. -/
lemma canMove_not_finished {board : Board} {t : TokenState} {d : Nat}
    (hcan : canMoveToken board t d = true) : t.isFinished = false := by
  by_cases hf : t.isFinished
  · simp [canMoveToken, hf] at hcan
  · simpa using hf

/-- An on-board token accepted by `canMoveToken` does not overshoot the
final path index. -/
lemma canMove_bound {board : Board} {t : TokenState} {d : Nat}
    (hcan : canMoveToken board t d = true) (hne : t.pathIndex ≠ -1) :
    t.pathIndex + (d : Int) ≤ ((board t.color).path.length : Int) - 1 := by
  have hf := canMove_not_finished hcan
  simp [canMoveToken, hf, hne] at hcan
  exact hcan

/-- A based token is accepted by `canMoveToken` only on a 6. -/
lemma canMove_base_six {board : Board} {t : TokenState} {d : Nat}
    (hcan : canMoveToken board t d = true) (hpi : t.pathIndex = -1) : d = 6 := by
  have hf := canMove_not_finished hcan
  simp [canMoveToken, hf, hpi] at hcan
  exact hcan

/-- The destination index of a legal move is a valid index of the mover's
path. -/
lemma pathAt_moveDest_some {board : Board} {t : TokenState} {d : Nat}
    (hcan : canMoveToken board t d = true) (hpi : -1 ≤ t.pathIndex)
    (hN : 0 < (board t.color).path.length) :
    ∃ P, pathAt (board t.color).path (moveDest t d) = some P := by
  by_cases h1 : t.pathIndex = -1
  · have h0 : moveDest t d = 0 := by simp [moveDest, h1]
    have hlt : (0 : Nat) < (board t.color).path.length := hN
    refine ⟨(board t.color).path.get ⟨0, hlt⟩, ?_⟩
    rw [h0]
    unfold pathAt
    rw [if_neg (by omega)]
    exact List.get?_eq_get hlt
  · have hb := canMove_bound hcan h1
    have h0 : moveDest t d = t.pathIndex + (d : Int) := by simp [moveDest, h1]
    have hge : 0 ≤ moveDest t d := by omega
    have hlt : (moveDest t d).toNat < (board t.color).path.length := by omega
    refine ⟨(board t.color).path.get ⟨(moveDest t d).toNat, hlt⟩, ?_⟩
    unfold pathAt
    rw [if_neg (by omega)]
    exact List.get?_eq_get hlt

/--
C2: a non-finished token in base is movable exactly on a dice of 6 (and its
computed destination is then path index 0), and a non-finished on-board token
at index `i` is movable exactly when `i + dice` does not pass the last path
index.
-/
theorem C2_canMove_spec (board : Board) (t : TokenState) (d : Nat)
    (hnf : t.isFinished = false) (hd1 : 1 ≤ d) (hd6 : d ≤ 6) :
    (t.pathIndex = -1 →
      ((canMoveToken board t d = true ↔ d = 6) ∧ moveDest t d = 0)) ∧
    (0 ≤ t.pathIndex →
      (canMoveToken board t d = true ↔
        t.pathIndex + (d : Int) ≤ ((board t.color).path.length : Int) - 1)) := by
  constructor
  · intro hpi
    refine ⟨?_, by simp [moveDest, hpi]⟩
    simp [canMoveToken, hnf, hpi]
  · intro hpi
    have hne : t.pathIndex ≠ -1 := by omega
    simp [canMoveToken, hnf, hne]

/-- Witness for C2 at a concrete input: red's token 0 in base with a 6. -/
theorem C2_canMove_spec_witness :
    (witTok.isFinished = false ∧ 1 ≤ 6 ∧ 6 ≤ 6) ∧
    ((witTok.pathIndex = -1 →
      ((canMoveToken sampleBoard witTok 6 = true ↔ (6 : Nat) = 6) ∧ moveDest witTok 6 = 0)) ∧
     (0 ≤ witTok.pathIndex →
      (canMoveToken sampleBoard witTok 6 = true ↔
        witTok.pathIndex + ((6 : Nat) : Int) ≤ ((sampleBoard witTok.color).path.length : Int) - 1))) :=
  ⟨⟨by decide, by decide, by decide⟩,
    C2_canMove_spec sampleBoard witTok 6 (by decide) (by decide) (by decide)⟩

/--
C10: a roll that leaves the current player without any movable token always
rotates the turn to the next player, whatever the dice value was (so a 6 with
no legal move earns no bonus roll).
-/
theorem C10_empty_roll_advances (board : Board) (s : GameState) (d : Nat)
    (hroll : s.isRolling = false) (hhas : s.hasRolled = false) (hwin : s.winner = none)
    (hmov : getMovableTokens board s.tokens s.currentPlayer d = []) :
    (rollDice board s d).currentPlayer = nextPlayer s.currentPlayer ∧
    nextPlayer s.currentPlayer ≠ s.currentPlayer ∧
    (rollDice board s d).hasRolled = false ∧
    (rollDice board s d).diceValue = d := by
  refine ⟨?_, nextPlayer_ne s.currentPlayer, ?_, ?_⟩ <;>
    simp [rollDice, hroll, hhas, hwin, hmov, nextTurn]

/-- Witness for C10: in the initial state a rolled 6 has movable tokens, a
rolled 1 has none; at dice 1 the turn passes from red to green. -/
theorem C10_empty_roll_advances_witness :
    (initState.isRolling = false ∧ initState.hasRolled = false ∧ initState.winner = none ∧
      getMovableTokens sampleBoard initState.tokens initState.currentPlayer 1 = []) ∧
    ((rollDice sampleBoard initState 1).currentPlayer = nextPlayer initState.currentPlayer ∧
     nextPlayer initState.currentPlayer ≠ initState.currentPlayer ∧
     (rollDice sampleBoard initState 1).hasRolled = false ∧
     (rollDice sampleBoard initState 1).diceValue = 1) :=
  ⟨⟨by decide, by decide, by decide, by decide⟩,
    C10_empty_roll_advances sampleBoard initState 1 (by decide) (by decide) (by decide) (by decide)⟩

/--
C6 counterexample: calling `moveToken` with the out-of-range token id 4 in a
legitimate move phase does not return at all: the token lookup yields
`undefined` and the following property access throws (modelled as
`Except.error ()`), so the call is not a normal state-preserving return as
the claim states.
-/
theorem C6_counterexample :
    moveToken sampleBoard rolledState 4 = Except.error () ∧
    moveToken sampleBoard rolledState 4 ≠ Except.ok rolledState := by
  refine ⟨rfl, fun h => ?_⟩
  have h2 : (Except.error () : Except Unit GameState) = Except.ok rolledState :=
    (rfl : moveToken sampleBoard rolledState 4 = Except.error ()).symm.trans h
  exact Except.noConfusion h2

/--
C6 amended: every illegal engine call leaves the game state unmutated.
Wrong-phase rolls and moves, and moves of a non-movable token, return the
state unchanged; a move with an out-of-range token id throws (the JavaScript
token lookup yields `undefined`), still without mutating any state.  A
wrong-player call is not expressible against this engine: the hook's
operations always act for the current player.
-/
theorem C6_illegal_calls_no_mutation (board : Board) :
    (∀ s d, (s.isRolling = true ∨ s.hasRolled = true ∨ s.winner.isSome = true) →
      rollDice board s d = s) ∧
    (∀ s tid, (s.hasRolled = false ∨ s.winner.isSome = true) →
      moveToken board s tid = Except.ok s) ∧
    (∀ s tid t, s.hasRolled = true → s.winner = none →
      (s.tokens s.currentPlayer).get? tid = some t →
      canMoveToken board t s.diceValue = false →
      moveToken board s tid = Except.ok s) ∧
    (∀ s tid, s.hasRolled = true → s.winner = none →
      (s.tokens s.currentPlayer).get? tid = none →
      moveToken board s tid = Except.error ()) := by
  refine ⟨?_, ?_, ?_, ?_⟩
  · intro s d h
    rcases h with h | h | h <;> simp [rollDice, h]
  · intro s tid h
    rcases h with h | h <;> simp [moveToken, h]
  · intro s tid t hroll hwin hget hcan
    have hget' : (s.tokens s.currentPlayer)[tid]? = some t := by
      rw [← List.get?_eq_getElem?]; exact hget
    simp [moveToken, hroll, hwin, hget', hcan]
  · intro s tid hroll hwin hget
    have hget' : (s.tokens s.currentPlayer)[tid]? = none := by
      rw [← List.get?_eq_getElem?]; exact hget
    simp [moveToken, hroll, hwin, hget']

/-- Witness for the amended C6, exercising all four rejection shapes at
concrete inputs. -/
theorem C6_illegal_calls_no_mutation_witness :
    rollDice sampleBoard rolledState 3 = rolledState ∧
    moveToken sampleBoard initState 0 = Except.ok initState ∧
    moveToken sampleBoard rolledState 9 = Except.error () ∧
    moveToken sampleBoard { rolledState with diceValue := 3 } 0 =
      Except.ok { rolledState with diceValue := 3 } :=
  ⟨(C6_illegal_calls_no_mutation sampleBoard).1 rolledState 3 (Or.inr (Or.inl (by decide))),
   (C6_illegal_calls_no_mutation sampleBoard).2.1 initState 0 (Or.inl (by decide)),
   (C6_illegal_calls_no_mutation sampleBoard).2.2.2 rolledState 9 (by decide) (by decide) (by decide),
   (C6_illegal_calls_no_mutation sampleBoard).2.2.1 { rolledState with diceValue := 3 } 0
     { id := 0, color := PlayerColor.red, pathIndex := -1, isFinished := false }
     (by decide) (by decide) (by decide) (by decide)⟩

/-- On an accepted move, `moveToken` returns exactly the normal form
`moveResult`. -/
lemma moveToken_run (board : Board) (s : GameState) (tid : Nat) (t : TokenState) (P : Position)
    (hroll : s.hasRolled = true) (hwin : s.winner = none)
    (hget : (s.tokens s.currentPlayer).get? tid = some t)
    (hcan : canMoveToken board t s.diceValue = true)
    (hP : pathAt (board s.currentPlayer).path (moveDest t s.diceValue) = some P) :
    moveToken board s tid = Except.ok (moveResult board s tid t P) := by
  unfold moveToken
  rw [if_neg (by simp [hroll, hwin])]
  split
  · rename_i heq
    rw [hget] at heq
    cases heq
  · rename_i token heq
    rw [hget] at heq
    injection heq with h
    subst h
    rw [if_neg (by simp [hcan])]
    split
    · rename_i heq2
      rw [hP] at heq2
      cases heq2
    · rename_i pos heq2
      rw [hP] at heq2
      injection heq2 with h2
      subst h2
      rfl

/-- A capture found by `checkForCapture` names another colour that really
has an on-board, non-finished token at the position. -/
lemma checkForCapture_some {board : Board} {tokens : PlayerColor → List TokenState}
    {col cc : PlayerColor} {P : Position}
    (h : checkForCapture board tokens col P = some cc) :
    cc ≠ col ∧ colorHasTokenAt board tokens cc P = true := by
  unfold checkForCapture at h
  split at h
  · exact absurd h (by simp)
  · have h2 := List.find?_some h
    simp only [Bool.and_eq_true, Bool.not_eq_true', beq_eq_false_iff_ne] at h2
    exact h2

/-- `checkForCapture` never fires on a safe cell. -/
lemma checkForCapture_safe {board : Board} {tokens : PlayerColor → List TokenState}
    {col : PlayerColor} {P : Position} (h : P.isSafe = true) :
    checkForCapture board tokens col P = none := by
  unfold checkForCapture
  rw [if_pos h]

/-- If some other colour has a token at the position, `checkForCapture`
finds a capture. -/
lemma checkForCapture_isSome {board : Board} {tokens : PlayerColor → List TokenState}
    {col c : PlayerColor} {P : Position} (hsafe : P.isSafe = false) (hne : c ≠ col)
    (hhas : colorHasTokenAt board tokens c P = true) :
    (checkForCapture board tokens col P).isSome = true := by
  unfold checkForCapture
  rw [if_neg (by simp [hsafe])]
  apply List.find?_isSome.mpr
  exact ⟨c, mem_PLAYERS c, by simp [hne, hhas]⟩

/-- If the win test of an accepted move passes, the move is a finishing
move. -/
lemma allFinished_fin {board : Board} {s : GameState} {tid : Nat} {t : TokenState}
    (hget : (s.tokens s.currentPlayer).get? tid = some t)
    (hcan : canMoveToken board t s.diceValue = true)
    (hAF : moveAllFinished board s tid t = true) : moveFin board s t = true := by
  have hmem : t ∈ s.tokens s.currentPlayer := List.get?_mem hget
  have h2 := (List.all_eq_true.mp hAF) t hmem
  have hf := canMove_not_finished hcan
  simp only [hf, Bool.false_or, Bool.and_eq_true, beq_iff_eq] at h2
  exact h2.2

/-- Who holds the turn after an accepted move. -/
lemma moveResult_currentPlayer (board : Board) (s : GameState) (tid : Nat) (t : TokenState)
    (P : Position) :
    (moveResult board s tid t P).currentPlayer =
      if moveAllFinished board s tid t then s.currentPlayer
      else if moveBonus board s t P then s.currentPlayer
      else nextPlayer s.currentPlayer := by
  unfold moveResult nextTurn
  by_cases hAF : moveAllFinished board s tid t = true
  · simp [hAF]
  · by_cases hB : moveBonus board s t P = true
    · simp [hAF, hB]
    · simp [hAF, hB]

/-- The bonus flag of an accepted move is exactly the spec's disjunction:
a six, a capture at the destination, or a finishing move. -/
lemma moveBonus_iff {board : Board} {s : GameState} {t : TokenState} {P : Position} :
    moveBonus board s t P = true ↔
      (s.diceValue = 6 ∨
        (checkForCapture board s.tokens s.currentPlayer P).isSome = true ∨
        moveDest t s.diceValue = ((board s.currentPlayer).path.length : Int) - 1) := by
  constructor
  · intro h
    unfold moveBonus at h
    rw [Bool.or_eq_true] at h
    rcases h with h6 | h2
    · exact Or.inl (by simpa using h6)
    · rw [Bool.or_eq_true] at h2
      rcases h2 with hc | hF
      · by_cases hFin : moveFin board s t = true
        · exact Or.inr (Or.inr (by simpa [moveFin] using hFin))
        · rcases hcheck : checkForCapture board s.tokens s.currentPlayer P with _ | cc
          · rw [show moveCaptured board s t P = none by
              simp [moveCaptured, hFin, hcheck]] at hc
            simp at hc
          · exact Or.inr (Or.inl (by simp [hcheck]))
      · exact Or.inr (Or.inr (by simpa [moveFin] using hF))
  · intro h
    rcases h with h6 | hc | hF
    · simp [moveBonus, h6]
    · by_cases hFin : moveFin board s t = true
      · simp [moveBonus, hFin]
      · rcases hcheck : checkForCapture board s.tokens s.currentPlayer P with _ | cc
        · rw [hcheck] at hc
          simp at hc
        · have hhas := (checkForCapture_some hcheck).2
          have hcap : moveCaptured board s t P = some cc := by
            simp [moveCaptured, hFin, hcheck]
          simp [moveBonus, hcap, hhas]
    · have hFin : moveFin board s t = true := by simp [moveFin, hF]
      simp [moveBonus, hFin]

/--
C1: after any completed `moveToken` by the current player, the mover keeps
the turn exactly when the roll was a 6, or `checkForCapture` fired at the
destination, or the move reached the last path index; otherwise the turn
rotates to the next player in the fixed order red, green, yellow, blue
(wrapping around).
-/
theorem C1_turn_rotation (board : Board) (s : GameState) (tid : Nat) (t : TokenState)
    (hroll : s.hasRolled = true) (hwin : s.winner = none)
    (hget : (s.tokens s.currentPlayer).get? tid = some t)
    (hcol : t.color = s.currentPlayer)
    (hpi : -1 ≤ t.pathIndex)
    (hcan : canMoveToken board t s.diceValue = true)
    (hN : 0 < (board s.currentPlayer).path.length) :
    ∃ s' P, moveToken board s tid = Except.ok s' ∧
      pathAt (board s.currentPlayer).path (moveDest t s.diceValue) = some P ∧
      ((s'.currentPlayer = s.currentPlayer) ↔
        (s.diceValue = 6 ∨
          (checkForCapture board s.tokens s.currentPlayer P).isSome = true ∨
          moveDest t s.diceValue = ((board s.currentPlayer).path.length : Int) - 1)) ∧
      (¬(s.diceValue = 6 ∨
          (checkForCapture board s.tokens s.currentPlayer P).isSome = true ∨
          moveDest t s.diceValue = ((board s.currentPlayer).path.length : Int) - 1) →
        s'.currentPlayer = nextPlayer s.currentPlayer) ∧
      (nextPlayer PlayerColor.red = PlayerColor.green ∧
       nextPlayer PlayerColor.green = PlayerColor.yellow ∧
       nextPlayer PlayerColor.yellow = PlayerColor.blue ∧
       nextPlayer PlayerColor.blue = PlayerColor.red) := by
  obtain ⟨P, hP⟩ := pathAt_moveDest_some hcan hpi (by rw [hcol]; exact hN)
  rw [hcol] at hP
  refine ⟨moveResult board s tid t P, P,
    moveToken_run board s tid t P hroll hwin hget hcan hP, hP, ?_, ?_, by decide⟩
  · by_cases hAF : moveAllFinished board s tid t = true
    · have hFin := allFinished_fin hget hcan hAF
      have hcur : (moveResult board s tid t P).currentPlayer = s.currentPlayer := by
        rw [moveResult_currentPlayer]
        simp [hAF]
      rw [hcur]
      simp only [true_iff, iff_true]
      exact Or.inr (Or.inr (by simpa [moveFin] using hFin))
    · have hcur : (moveResult board s tid t P).currentPlayer =
          if moveBonus board s t P then s.currentPlayer else nextPlayer s.currentPlayer := by
        rw [moveResult_currentPlayer]
        simp [hAF]
      by_cases hB : moveBonus board s t P = true
      · rw [hcur, if_pos hB]
        simp only [true_iff, iff_true]
        exact moveBonus_iff.mp hB
      · rw [hcur, if_neg (by simpa using hB)]
        constructor
        · intro hcontr
          exact absurd hcontr (nextPlayer_ne s.currentPlayer)
        · intro hrhs
          exact absurd (moveBonus_iff.mpr hrhs) hB
  · intro hrhs
    have hB : moveBonus board s t P ≠ true := fun hb => hrhs (moveBonus_iff.mp hb)
    have hAF : moveAllFinished board s tid t ≠ true := by
      intro hAF
      have hFin := allFinished_fin hget hcan hAF
      exact hrhs (Or.inr (Or.inr (by simpa [moveFin] using hFin)))
    rw [moveResult_currentPlayer]
    simp [hAF, hB]

/-- Witness for C1: red rolled a 6 with every token in base and moves token
0 out; the roll being a 6, red keeps the turn. -/
theorem C1_turn_rotation_witness :
    (rolledState.hasRolled = true ∧ rolledState.winner = none ∧
     (rolledState.tokens rolledState.currentPlayer).get? 0 = some witTok ∧
     witTok.color = rolledState.currentPlayer ∧ -1 ≤ witTok.pathIndex ∧
     canMoveToken sampleBoard witTok rolledState.diceValue = true ∧
     0 < (sampleBoard rolledState.currentPlayer).path.length) ∧
    (∃ s' P, moveToken sampleBoard rolledState 0 = Except.ok s' ∧
      pathAt (sampleBoard rolledState.currentPlayer).path (moveDest witTok rolledState.diceValue) =
        some P ∧
      ((s'.currentPlayer = rolledState.currentPlayer) ↔
        (rolledState.diceValue = 6 ∨
          (checkForCapture sampleBoard rolledState.tokens rolledState.currentPlayer P).isSome = true ∨
          moveDest witTok rolledState.diceValue =
            ((sampleBoard rolledState.currentPlayer).path.length : Int) - 1)) ∧
      (¬(rolledState.diceValue = 6 ∨
          (checkForCapture sampleBoard rolledState.tokens rolledState.currentPlayer P).isSome = true ∨
          moveDest witTok rolledState.diceValue =
            ((sampleBoard rolledState.currentPlayer).path.length : Int) - 1) →
        s'.currentPlayer = nextPlayer rolledState.currentPlayer) ∧
      (nextPlayer PlayerColor.red = PlayerColor.green ∧
       nextPlayer PlayerColor.green = PlayerColor.yellow ∧
       nextPlayer PlayerColor.yellow = PlayerColor.blue ∧
       nextPlayer PlayerColor.blue = PlayerColor.red)) :=
  ⟨⟨by decide, by decide, by decide, by decide, by decide, by decide, by decide⟩,
    C1_turn_rotation sampleBoard rolledState 0 witTok (by decide) (by decide) (by decide)
      (by decide) (by decide) (by decide) (by decide)⟩

/-- `rollDice` never touches the token map. -/
lemma rollDice_tokens (board : Board) (s : GameState) (d : Nat) :
    (rollDice board s d).tokens = s.tokens := by
  unfold rollDice
  split
  · rfl
  · dsimp only
    split
    · simp [nextTurn]
    · rfl
    · rfl

/-- Any `Except.ok` outcome of `moveToken` is either a rejected call
returning the state unchanged, or the normal form of an accepted move. -/
lemma moveToken_ok_cases {board : Board} {s s' : GameState} {tid : Nat}
    (h : moveToken board s tid = Except.ok s') :
    s' = s ∨ ∃ t P, (s.tokens s.currentPlayer).get? tid = some t ∧
      s.hasRolled = true ∧ s.winner = none ∧
      canMoveToken board t s.diceValue = true ∧
      pathAt (board s.currentPlayer).path (moveDest t s.diceValue) = some P ∧
      s' = moveResult board s tid t P := by
  unfold moveToken at h
  split at h
  · injection h with h2
    exact Or.inl h2.symm
  · rename_i hguard
    have hroll : s.hasRolled = true := by
      by_cases hh : s.hasRolled
      · exact hh
      · exact absurd (by simp [hh]) hguard
    have hwin : s.winner = none := by
      rcases hw : s.winner with _ | w
      · rfl
      · exact absurd (by simp [hw]) hguard
    split at h
    · cases h
    · rename_i token heq
      split at h
      · injection h with h2
        exact Or.inl h2.symm
      · rename_i hcm
        have hcan : canMoveToken board token s.diceValue = true := by
          by_cases hc : canMoveToken board token s.diceValue
          · exact hc
          · exact absurd (by simp [hc]) hcm
        split at h
        · cases h
        · rename_i pos heq2
          injection h with h2
          exact Or.inr ⟨token, pos, heq, hroll, hwin, hcan, heq2, h2.symm⟩

/-- The token map of the result of an accepted move. -/
lemma moveResult_tokens (board : Board) (s : GameState) (tid : Nat) (t : TokenState)
    (P : Position) :
    (moveResult board s tid t P).tokens = moveNewTokens board s tid t P := by
  unfold moveResult nextTurn
  split
  · rfl
  · split <;> rfl

/-- Token lookup in the updated map of an accepted move: each slot is either
unchanged, the moved token of the mover, or a captured token sent to base. -/
lemma moveNewTokens_get? (board : Board) (s : GameState) (tid : Nat) (t : TokenState)
    (P : Position) (c : PlayerColor) (i : Nat) :
    (moveNewTokens board s tid t P c).get? i = (s.tokens c).get? i ∨
    (∃ t0, (s.tokens c).get? i = some t0 ∧ c = s.currentPlayer ∧ t0.id = tid ∧
      (moveNewTokens board s tid t P c).get? i =
        some { t0 with pathIndex := moveDest t s.diceValue, isFinished := moveFin board s t }) ∨
    (∃ t0, (s.tokens c).get? i = some t0 ∧ c ≠ s.currentPlayer ∧ t0.isFinished = false ∧
      t0.pathIndex ≠ -1 ∧ posMatches board t0 P = true ∧
      (moveNewTokens board s tid t P c).get? i = some { t0 with pathIndex := -1 }) := by
  unfold moveNewTokens
  by_cases hc : c = s.currentPlayer
  · rw [if_pos hc]
    unfold moverUpdate
    rw [List.get?_map]
    rcases hg : (s.tokens c).get? i with _ | t0
    · exact Or.inl rfl
    · by_cases hid : t0.id = tid
      · exact Or.inr (Or.inl ⟨t0, rfl, hc, hid, by simp [hid]⟩)
      · exact Or.inl (by simp [hid])
  · rw [if_neg hc]
    by_cases hcap : moveCaptured board s t P = some c
    · rw [if_pos hcap]
      unfold captureReset
      rw [List.get?_map]
      rcases hg : (s.tokens c).get? i with _ | t0
      · exact Or.inl rfl
      · by_cases hbf : (t0.pathIndex == -1 || t0.isFinished) = true
        · exact Or.inl (congrArg some (if_pos hbf))
        · have hne1 : t0.pathIndex ≠ -1 := by
            intro hx
            exact hbf (by simp [hx])
          have hne2 : t0.isFinished = false := by
            by_cases hf : t0.isFinished
            · exact absurd (by simp [hf]) hbf
            · simpa using hf
          by_cases hpm : posMatches board t0 P = true
          · exact Or.inr (Or.inr ⟨t0, rfl, hc, hne2, hne1, hpm,
              congrArg some (by dsimp only; rw [if_neg hbf, if_pos hpm])⟩)
          · exact Or.inl (congrArg some (by dsimp only; rw [if_neg hbf, if_neg hpm]))
    · rw [if_neg hcap]
      exact Or.inl rfl

/-- The destination of an accepted move lies within the mover's path. -/
lemma moveDest_bounds {board : Board} {t : TokenState} {d : Nat}
    (hcan : canMoveToken board t d = true) (hpi : -1 ≤ t.pathIndex)
    (hN : 0 < (board t.color).path.length) :
    0 ≤ moveDest t d ∧ moveDest t d ≤ ((board t.color).path.length : Int) - 1 := by
  by_cases h1 : t.pathIndex = -1
  · have h0 : moveDest t d = 0 := by simp [moveDest, h1]
    constructor <;> omega
  · have hb := canMove_bound hcan h1
    have h0 : moveDest t d = t.pathIndex + (d : Int) := by simp [moveDest, h1]
    constructor <;> omega

/-- Well-formedness survives an accepted move. -/
lemma wf_moveResult {board : Board} {s : GameState} {tid : Nat} {t : TokenState} {P : Position}
    (hb : ∀ c, 0 < (board c).path.length) (hwf : WFState board s)
    (hget : (s.tokens s.currentPlayer).get? tid = some t)
    (hcan : canMoveToken board t s.diceValue = true) :
    WFState board (moveResult board s tid t P) := by
  have hcol : t.color = s.currentPlayer := hwf.colors _ _ _ hget
  have hpi : -1 ≤ t.pathIndex := hwf.lb _ _ _ hget
  have hdb := moveDest_bounds hcan hpi (hb t.color)
  rw [hcol] at hdb
  obtain ⟨hdb1, hdb2⟩ := hdb
  have htk := moveResult_tokens board s tid t P
  constructor
  · intro c
    rw [htk]
    unfold moveNewTokens moverUpdate captureReset
    by_cases hc : c = s.currentPlayer
    · simp [hc, hwf.len]
    · by_cases hcap : moveCaptured board s t P = some c <;> simp [hc, hcap, hwf.len]
  · intro c i t' h
    rw [htk] at h
    rcases moveNewTokens_get? board s tid t P c i with he | ⟨t0, hg, _, hid, he⟩ |
      ⟨t0, hg, _, _, _, _, he⟩
    · rw [he] at h
      exact hwf.ids c i t' h
    · rw [he] at h
      injection h with h2
      rw [← h2]
      exact hwf.ids c i t0 hg
    · rw [he] at h
      injection h with h2
      rw [← h2]
      exact hwf.ids c i t0 hg
  · intro c i t' h
    rw [htk] at h
    rcases moveNewTokens_get? board s tid t P c i with he | ⟨t0, hg, _, hid, he⟩ |
      ⟨t0, hg, _, _, _, _, he⟩
    · rw [he] at h
      exact hwf.colors c i t' h
    · rw [he] at h
      injection h with h2
      rw [← h2]
      exact hwf.colors c i t0 hg
    · rw [he] at h
      injection h with h2
      rw [← h2]
      exact hwf.colors c i t0 hg
  · intro c i t' h
    rw [htk] at h
    rcases moveNewTokens_get? board s tid t P c i with he | ⟨t0, hg, _, hid, he⟩ |
      ⟨t0, hg, _, _, _, _, he⟩
    · rw [he] at h
      exact hwf.lb c i t' h
    · rw [he] at h
      injection h with h2
      rw [← h2]
      dsimp only
      omega
    · rw [he] at h
      injection h with h2
      rw [← h2]
  · intro c i t' h
    rw [htk] at h
    rcases moveNewTokens_get? board s tid t P c i with he | ⟨t0, hg, hcur, hid, he⟩ |
      ⟨t0, hg, _, _, _, _, he⟩
    · rw [he] at h
      exact hwf.ub c i t' h
    · rw [he] at h
      injection h with h2
      rw [← h2, hcur]
      simpa using hdb2
    · rw [he] at h
      injection h with h2
      rw [← h2]
      have := hb c
      dsimp only
      omega
  · intro c i t' h
    rw [htk] at h
    rcases moveNewTokens_get? board s tid t P c i with he | ⟨t0, hg, hcur, hid, he⟩ |
      ⟨t0, hg, _, hfin, _, _, he⟩
    · rw [he] at h
      exact hwf.fin c i t' h
    · rw [he] at h
      injection h with h2
      rw [← h2, hcur]
      simp only [moveFin, beq_iff_eq]
    · rw [he] at h
      injection h with h2
      rw [← h2]
      have := hb c
      constructor
      · intro hx
        exact absurd hx (by simp [hfin])
      · intro hx
        dsimp only at hx
        omega

/-- Well-formedness survives a roll. -/
lemma wf_roll {board : Board} {s : GameState} {d : Nat} (hwf : WFState board s) :
    WFState board (rollDice board s d) := by
  have ht := rollDice_tokens board s d
  constructor
  · intro c
    rw [ht]
    exact hwf.len c
  · intro c i t h
    rw [ht] at h
    exact hwf.ids c i t h
  · intro c i t h
    rw [ht] at h
    exact hwf.colors c i t h
  · intro c i t h
    rw [ht] at h
    exact hwf.lb c i t h
  · intro c i t h
    rw [ht] at h
    exact hwf.ub c i t h
  · intro c i t h
    rw [ht] at h
    exact hwf.fin c i t h

/-- Token lookup in the initial token map. -/
lemma initTokens_get? (c : PlayerColor) (i : Nat) :
    (initTokens c).get? i =
      if i < 4 then some { id := i, color := c, pathIndex := -1, isFinished := false }
      else none := by
  unfold initTokens
  rw [List.get?_map]
  by_cases h : i < 4
  · rw [List.get?_range h, if_pos h]
    rfl
  · rw [if_neg h, List.get?_eq_none.mpr (by simpa using Nat.le_of_not_lt h)]
    rfl

/-- The initial state is well-formed. -/
lemma wf_init {board : Board} (hb : ∀ c, 0 < (board c).path.length) :
    WFState board initState := by
  have hN : ∀ c, (1 : Int) ≤ ((board c).path.length : Int) := by
    intro c
    have := hb c
    omega
  constructor
  · intro c
    simp [initState, initTokens]
  · intro c i t h
    rw [show initState.tokens = initTokens from rfl, initTokens_get?] at h
    split at h
    · injection h with h2
      rw [← h2]
    · cases h
  · intro c i t h
    rw [show initState.tokens = initTokens from rfl, initTokens_get?] at h
    split at h
    · injection h with h2
      rw [← h2]
    · cases h
  · intro c i t h
    rw [show initState.tokens = initTokens from rfl, initTokens_get?] at h
    split at h
    · injection h with h2
      rw [← h2]
    · cases h
  · intro c i t h
    rw [show initState.tokens = initTokens from rfl, initTokens_get?] at h
    split at h
    · injection h with h2
      rw [← h2]
      have := hN c
      simp only []
      omega
    · cases h
  · intro c i t h
    rw [show initState.tokens = initTokens from rfl, initTokens_get?] at h
    split at h
    · injection h with h2
      rw [← h2]
      have := hN c
      constructor
      · intro hx
        exact absurd hx (by simp)
      · intro hx
        dsimp only at hx
        omega
    · cases h

/-- Every reachable state is well-formed. -/
theorem reachable_wf {board : Board} {s : GameState}
    (hb : ∀ c, 0 < (board c).path.length) (hr : Reachable board s) :
    WFState board s := by
  induction hr with
  | init => exact wf_init hb
  | roll hr h1 h6 ih => exact wf_roll ih
  | move hr hok ih =>
    rcases moveToken_ok_cases hok with h | ⟨t, P, hget, hroll, hwin, hcan, hP, hs'⟩
    · rw [h]
      exact ih
    · rw [hs']
      exact wf_moveResult hb ih hget hcan

/-- The mover's column of the updated token map. -/
lemma moveNewTokens_cur (board : Board) (s : GameState) (tid : Nat) (t : TokenState)
    (P : Position) :
    moveNewTokens board s tid t P s.currentPlayer =
      moverUpdate tid (moveDest t s.diceValue) (moveFin board s t)
        (s.tokens s.currentPlayer) := by
  unfold moveNewTokens
  rw [if_pos rfl]

/-- The winner field after an accepted move. -/
lemma moveResult_winner (board : Board) (s : GameState) (tid : Nat) (t : TokenState)
    (P : Position) (hwin : s.winner = none) :
    (moveResult board s tid t P).winner =
      if moveAllFinished board s tid t then some s.currentPlayer else none := by
  unfold moveResult nextTurn
  by_cases hAF : moveAllFinished board s tid t = true
  · simp [hAF]
  · by_cases hB : moveBonus board s t P = true <;> simp [hAF, hB, hwin]

/-- On a winning move neither the turn holder nor the rolled flag change. -/
lemma moveResult_win_fields (board : Board) (s : GameState) (tid : Nat) (t : TokenState)
    (P : Position) (hAF : moveAllFinished board s tid t = true) :
    (moveResult board s tid t P).currentPlayer = s.currentPlayer ∧
    (moveResult board s tid t P).hasRolled = s.hasRolled := by
  unfold moveResult
  simp [hAF]

/--
C5: in every reachable state every token's path coordinate lies in
`[-1, N-1]`; a `rollDice` never moves any token, and a `moveToken` never
decreases a token's coordinate except by a capture, which sends an opponent
token back to `-1`.
-/
theorem C5_coordinate_invariant (board : Board) (hb : ∀ c, 0 < (board c).path.length)
    (s : GameState) (hr : Reachable board s) :
    (∀ c i t, (s.tokens c).get? i = some t →
      -1 ≤ t.pathIndex ∧ t.pathIndex ≤ ((board c).path.length : Int) - 1) ∧
    (∀ d, (rollDice board s d).tokens = s.tokens) ∧
    (∀ tid s', moveToken board s tid = Except.ok s' →
      ∀ c i t t', (s.tokens c).get? i = some t → (s'.tokens c).get? i = some t' →
        t.pathIndex ≤ t'.pathIndex ∨
        (t'.pathIndex = -1 ∧ 0 ≤ t.pathIndex ∧ c ≠ s.currentPlayer)) := by
  have hwf := reachable_wf hb hr
  refine ⟨fun c i t h => ⟨hwf.lb c i t h, hwf.ub c i t h⟩,
    fun d => rollDice_tokens board s d, ?_⟩
  intro tid s' hok c i t t' hg hg'
  rcases moveToken_ok_cases hok with hs | ⟨t1, P, hget, hroll, hwin, hcan, hP, hs⟩
  · subst hs
    rw [hg] at hg'
    injection hg' with h2
    rw [h2]
    exact Or.inl (le_refl _)
  · subst hs
    rw [moveResult_tokens] at hg'
    rcases moveNewTokens_get? board s tid t1 P c i with he | ⟨t0, hg0, hcur, hid, he⟩ |
      ⟨t0, hg0, hcur, hfin, hne, hpm, he⟩
    · rw [he, hg] at hg'
      injection hg' with h2
      rw [h2]
      exact Or.inl (le_refl _)
    · rw [hg] at hg0
      injection hg0 with h0
      rw [he] at hg'
      injection hg' with h2
      have hii : t.id = i := hwf.ids c i t hg
      have hit : i = tid := by
        rw [← hii, h0]
        exact hid
      have htt1 : t1 = t := by
        rw [hcur, hit, hget] at hg
        injection hg
      left
      rw [← h2]
      dsimp only
      rw [htt1]
      unfold moveDest
      by_cases hm : t.pathIndex = -1
      · rw [if_pos hm]
        omega
      · rw [if_neg hm]
        omega
    · rw [he] at hg'
      injection hg' with h2
      rw [hg] at hg0
      injection hg0 with h0
      right
      refine ⟨by rw [← h2], ?_, hcur⟩
      have := hwf.lb c i t hg
      rw [← h0] at hne
      omega

/--
C4: after an accepted `moveToken`, the mover is declared winner exactly when
all four of the mover's tokens sit at the last path coordinate `N-1`; a
winning move leaves the turn holder in place (no turn-advancement logic
runs), and once the winner is set every further `rollDice` or `moveToken`
returns the state unchanged, so the winner is set exactly once per session.
-/
theorem C4_win_detection (board : Board) (hb : ∀ c, 0 < (board c).path.length)
    (s : GameState) (hr : Reachable board s) (tid : Nat) (t : TokenState)
    (hroll : s.hasRolled = true) (hwin : s.winner = none)
    (hget : (s.tokens s.currentPlayer).get? tid = some t)
    (hcan : canMoveToken board t s.diceValue = true) :
    ∃ s', moveToken board s tid = Except.ok s' ∧
      (s'.tokens s.currentPlayer).length = 4 ∧
      ((s'.winner = some s.currentPlayer) ↔
        (∀ i t', (s'.tokens s.currentPlayer).get? i = some t' →
          t'.pathIndex = ((board s.currentPlayer).path.length : Int) - 1)) ∧
      (s'.winner = some s.currentPlayer →
        s'.currentPlayer = s.currentPlayer ∧ s'.hasRolled = true) ∧
      (s'.winner.isSome = true →
        (∀ d, rollDice board s' d = s') ∧
        (∀ tid2, moveToken board s' tid2 = Except.ok s')) := by
  have hwf := reachable_wf hb hr
  have hcol : t.color = s.currentPlayer := hwf.colors _ _ _ hget
  have hpi : -1 ≤ t.pathIndex := hwf.lb _ _ _ hget
  obtain ⟨P, hP⟩ := pathAt_moveDest_some hcan hpi (by rw [hcol]; exact hb _)
  rw [hcol] at hP
  have hwf' := wf_moveResult (P := P) hb hwf hget hcan
  have hW := moveResult_winner board s tid t P hwin
  refine ⟨moveResult board s tid t P,
    moveToken_run board s tid t P hroll hwin hget hcan hP,
    hwf'.len s.currentPlayer, ?_, ?_, ?_⟩
  · constructor
    · intro hw i t' hg'
      have hAF : moveAllFinished board s tid t = true := by
        by_cases hAF : moveAllFinished board s tid t = true
        · exact hAF
        · rw [hW, if_neg hAF] at hw
          cases hw
      rw [moveResult_tokens, moveNewTokens_cur] at hg'
      unfold moverUpdate at hg'
      rw [List.get?_map] at hg'
      rcases hg0 : (s.tokens s.currentPlayer).get? i with _ | t0
      · rw [hg0] at hg'
        cases hg'
      · rw [hg0] at hg'
        injection hg' with h2
        have hall := (List.all_eq_true.mp hAF) t0 (List.get?_mem hg0)
        by_cases hid : t0.id = tid
        · have hFin : moveFin board s t = true := by
            have hat := (List.all_eq_true.mp hAF) t (List.get?_mem hget)
            have hf := canMove_not_finished hcan
            simp only [hf, Bool.false_or, Bool.and_eq_true, beq_iff_eq] at hat
            exact hat.2
          rw [← h2]
          simp only [hid, beq_self_eq_true, if_true]
          have : moveDest t s.diceValue = ((board s.currentPlayer).path.length : Int) - 1 := by
            simpa [moveFin] using hFin
          simpa using this
        · rw [← h2]
          simp only [beq_iff_eq, hid, if_false]
          rw [Bool.or_eq_true] at hall
          rcases hall with hfin0 | hboth
          · exact (hwf.fin _ _ _ hg0).mp hfin0
          · rw [Bool.and_eq_true, beq_iff_eq] at hboth
            exact absurd hboth.1 hid
    · intro hall
      have hAF : moveAllFinished board s tid t = true := by
        unfold moveAllFinished
        rw [List.all_eq_true]
        intro tk hmem
        rcases List.mem_iff_get?.mp hmem with ⟨i, hg0⟩
        have hg' : (moveNewTokens board s tid t P s.currentPlayer).get? i =
            some (if tk.id == tid then
              { tk with pathIndex := moveDest t s.diceValue, isFinished := moveFin board s t }
              else tk) := by
          rw [moveNewTokens_cur]
          unfold moverUpdate
          rw [List.get?_map, hg0]
          rfl
        by_cases hid : tk.id = tid
        · rw [if_pos (by simpa using hid)] at hg'
          have hend := hall i _ (by rw [moveResult_tokens]; exact hg')
          have hFin : moveFin board s t = true := by
            simp only [moveFin, beq_iff_eq]
            simpa using hend
          simp [hid, hFin]
        · rw [if_neg (by simpa using hid)] at hg'
          have hend := hall i tk (by rw [moveResult_tokens]; exact hg')
          have : tk.isFinished = true := (hwf.fin _ _ _ hg0).mpr hend
          simp [this]
      rw [hW, if_pos hAF]
  · intro hw
    have hAF : moveAllFinished board s tid t = true := by
      by_cases hAF : moveAllFinished board s tid t = true
      · exact hAF
      · rw [hW, if_neg hAF] at hw
        cases hw
    have := moveResult_win_fields board s tid t P hAF
    exact ⟨this.1, by rw [this.2]; exact hroll⟩
  · intro hw
    constructor
    · intro d
      unfold rollDice
      rw [if_pos (by simp [hw])]
    · intro tid2
      unfold moveToken
      rw [if_pos (by simp [hw])]

/-- The witness board has nonempty paths. -/
lemma sampleBoard_nonempty : ∀ c, 0 < (sampleBoard c).path.length := by
  intro c
  cases c <;> decide

/-- The witness state is reachable: it is the initial state after red rolls
a 6. -/
lemma rolledState_reachable : Reachable sampleBoard rolledState := by
  have h := @Reachable.roll sampleBoard initState 6 Reachable.init (by decide) (by decide)
  have he : rollDice sampleBoard initState 6 = rolledState := by
    unfold rollDice
    rw [if_neg (by decide)]
    dsimp only
    rw [show getMovableTokens sampleBoard initState.tokens initState.currentPlayer 6 =
      [0, 1, 2, 3] from by decide]
    rfl
  rw [he] at h
  exact h

/-- Witness for C5 at the concrete reachable state after red rolls a 6. -/
theorem C5_coordinate_invariant_witness :
    (∀ c, 0 < (sampleBoard c).path.length) ∧
    ((∀ c i t, (rolledState.tokens c).get? i = some t →
      -1 ≤ t.pathIndex ∧ t.pathIndex ≤ ((sampleBoard c).path.length : Int) - 1) ∧
    (∀ d, (rollDice sampleBoard rolledState d).tokens = rolledState.tokens) ∧
    (∀ tid s', moveToken sampleBoard rolledState tid = Except.ok s' →
      ∀ c i t t', (rolledState.tokens c).get? i = some t →
        (s'.tokens c).get? i = some t' →
        t.pathIndex ≤ t'.pathIndex ∨
        (t'.pathIndex = -1 ∧ 0 ≤ t.pathIndex ∧ c ≠ rolledState.currentPlayer))) :=
  ⟨sampleBoard_nonempty,
    C5_coordinate_invariant sampleBoard sampleBoard_nonempty rolledState rolledState_reachable⟩

/-- Witness for C4 at the concrete reachable state after red rolls a 6,
moving token 0 out of base. -/
theorem C4_win_detection_witness :
    (rolledState.hasRolled = true ∧ rolledState.winner = none ∧
      (rolledState.tokens rolledState.currentPlayer).get? 0 = some witTok ∧
      canMoveToken sampleBoard witTok rolledState.diceValue = true) ∧
    (∃ s', moveToken sampleBoard rolledState 0 = Except.ok s' ∧
      (s'.tokens rolledState.currentPlayer).length = 4 ∧
      ((s'.winner = some rolledState.currentPlayer) ↔
        (∀ i t', (s'.tokens rolledState.currentPlayer).get? i = some t' →
          t'.pathIndex = ((sampleBoard rolledState.currentPlayer).path.length : Int) - 1)) ∧
      (s'.winner = some rolledState.currentPlayer →
        s'.currentPlayer = rolledState.currentPlayer ∧ s'.hasRolled = true) ∧
      (s'.winner.isSome = true →
        (∀ d, rollDice sampleBoard s' d = s') ∧
        (∀ tid2, moveToken sampleBoard s' tid2 = Except.ok s'))) :=
  ⟨⟨by decide, by decide, by decide, by decide⟩,
    C4_win_detection sampleBoard sampleBoard_nonempty rolledState rolledState_reachable 0 witTok
      (by decide) (by decide) (by decide) (by decide)⟩

/-- The modelled absolute value is symmetric in subtraction. -/
lemma ratAbs_sub_comm (a b : Rat) : ratAbs (a - b) = ratAbs (b - a) := by
  unfold ratAbs
  rcases lt_trichotomy (a - b) 0 with h | h | h
  · rw [if_pos h, if_neg (by linarith)]
    ring
  · have h2 : b - a = 0 := by linarith
    rw [h, h2]
  · rw [if_neg (by linarith), if_pos (by linarith)]
    ring

/-- The tolerance comparison is reflexive. -/
lemma closeTo_refl (p : Position) : closeTo p p = true := by
  simp only [closeTo, sub_self]
  decide

/-- The tolerance comparison is symmetric. -/
lemma closeTo_symm (p q : Position) : closeTo p q = closeTo q p := by
  unfold closeTo
  rw [ratAbs_sub_comm p.x q.x, ratAbs_sub_comm p.y q.y]

/-- An on-board, non-finished token renders at its path cell. -/
lemma getTokenPosition_onboard {board : Board} {t : TokenState}
    (hfin : t.isFinished = false) (hne : t.pathIndex ≠ -1) :
    getTokenPosition board t = pathAt (board t.color).path t.pathIndex := by
  unfold getTokenPosition
  rw [if_neg (by simp [hfin]), if_neg hne]

/-- Unfolding a successful `pathAt` lookup. -/
lemma pathAt_get? {l : List Position} {i : Int} {P : Position}
    (h : pathAt l i = some P) : l.get? i.toNat = some P ∧ 0 ≤ i := by
  unfold pathAt at h
  split at h
  · cases h
  · rename_i h0
    exact ⟨h, by omega⟩

/-- In a well-formed state, an on-board non-finished token's rendered
position is one of its colour's non-final path cells. -/
lemma token_cell {board : Board} {s : GameState} (hwf : WFState board s)
    {c : PlayerColor} {i : Nat} {t : TokenState} {q : Position}
    (hg : (s.tokens c).get? i = some t) (hne : t.pathIndex ≠ -1)
    (hfin : t.isFinished = false) (hq : getTokenPosition board t = some q) :
    (board c).path.get? t.pathIndex.toNat = some q ∧
    t.pathIndex.toNat + 1 < (board c).path.length := by
  have hcol := hwf.colors _ _ _ hg
  have hlb := hwf.lb _ _ _ hg
  have hub := hwf.ub _ _ _ hg
  have hne2 : t.pathIndex ≠ ((board c).path.length : Int) - 1 := by
    intro hx
    rw [(hwf.fin _ _ _ hg).mpr hx] at hfin
    cases hfin
  rw [getTokenPosition_onboard hfin hne, hcol] at hq
  obtain ⟨hq2, hge⟩ := pathAt_get? hq
  exact ⟨hq2, by omega⟩

/-- The capture scan of one colour succeeds exactly when that colour has an
on-board, non-finished token rendered at the position. -/
lemma colorHasTokenAt_iff {board : Board} {tokens : PlayerColor → List TokenState}
    {c : PlayerColor} {P : Position} :
    colorHasTokenAt board tokens c P = true ↔
      ∃ t, t ∈ tokens c ∧ t.pathIndex ≠ -1 ∧ t.isFinished = false ∧
        ∃ q, getTokenPosition board t = some q ∧ closeTo q P = true := by
  unfold colorHasTokenAt
  rw [List.any_eq_true]
  constructor
  · rintro ⟨t, hmem, hcond⟩
    simp only [Bool.and_eq_true, Bool.not_eq_true', beq_eq_false_iff_ne] at hcond
    obtain ⟨⟨hne, hfin⟩, hpm⟩ := hcond
    unfold posMatches at hpm
    rcases hq : getTokenPosition board t with _ | q
    · rw [hq] at hpm
      cases hpm
    · rw [hq] at hpm
      exact ⟨t, hmem, hne, hfin, q, hq, hpm⟩
  · rintro ⟨t, hmem, hne, hfin, q, hq, hcl⟩
    refine ⟨t, hmem, ?_⟩
    simp only [Bool.and_eq_true, Bool.not_eq_true', beq_eq_false_iff_ne]
    refine ⟨⟨hne, hfin⟩, ?_⟩
    unfold posMatches
    rw [hq]
    exact hcl

/-- A fired capture implies the destination was not safe. -/
lemma checkForCapture_some_unsafe {board : Board} {tokens : PlayerColor → List TokenState}
    {col cc : PlayerColor} {P : Position}
    (h : checkForCapture board tokens col P = some cc) : P.isSafe = false := by
  unfold checkForCapture at h
  split at h
  · cases h
  · rename_i hs
    by_cases hP : P.isSafe
    · exact absurd hP hs
    · simpa using hP

/-- Under the pairwise invariant, a fired capture names exactly the colour
of any given opponent token standing at the (cell) destination. -/
lemma capture_unique {board : Board} {s : GameState} (hgeom : BoardGeom board)
    (hwf : WFState board s) (hpair : PairINV board s)
    {c cc : PlayerColor} {P : Position} {i : Nat} {t2 : TokenState} {q2 : Position}
    {j : Nat} (hPj : (board s.currentPlayer).path.get? j = some P)
    (hcc : checkForCapture board s.tokens s.currentPlayer P = some cc)
    (hc : c ≠ s.currentPlayer)
    (hg2 : (s.tokens c).get? i = some t2) (hne2 : t2.pathIndex ≠ -1)
    (hfin2 : t2.isFinished = false) (hq2 : getTokenPosition board t2 = some q2)
    (hcl2 : closeTo q2 P = true) : cc = c := by
  by_contra hnecc
  have hsafe := checkForCapture_some_unsafe hcc
  obtain ⟨hccne, hhas⟩ := checkForCapture_some hcc
  rw [colorHasTokenAt_iff] at hhas
  obtain ⟨t3, hmem3, hne3, hfin3, q3, hq3, hcl3⟩ := hhas
  obtain ⟨i3, hg3⟩ := List.mem_iff_get?.mp hmem3
  have hc2cell := (token_cell hwf hg2 hne2 hfin2 hq2).1
  have hc3cell := (token_cell hwf hg3 hne3 hfin3 hq3).1
  have hq2P : q2 = P := hgeom.cellSep _ _ _ _ _ _ hc2cell hPj hcl2
  have hq3P : q3 = P := hgeom.cellSep _ _ _ _ _ _ hc3cell hPj hcl3
  have hps := hpair cc c i3 i t3 t2 q3 q2 hnecc hg3 hg2 hne3 hfin3 hne2 hfin2 hq3 hq2
    (by rw [hq2P, hq3P]; exact closeTo_refl P)
  rw [hq3P] at hps
  rw [hps] at hsafe
  cases hsafe

/-- The non-mover columns of the updated token map. -/
lemma moveNewTokens_other {board : Board} {s : GameState} {tid : Nat} {t : TokenState}
    {P : Position} {c : PlayerColor} (hc : c ≠ s.currentPlayer) :
    moveNewTokens board s tid t P c =
      if moveCaptured board s t P = some c then captureReset board P (s.tokens c)
      else s.tokens c := by
  unfold moveNewTokens
  rw [if_neg hc]

/-- An opponent token still on the board after a move was already there
before it, and if its colour was captured it did not match the capture
condition. -/
lemma other_token_pre {board : Board} {s : GameState} {tid : Nat} {t : TokenState}
    {P : Position} {c : PlayerColor} {i : Nat} {t' : TokenState}
    (hc : c ≠ s.currentPlayer)
    (hg' : (moveNewTokens board s tid t P c).get? i = some t')
    (hne : t'.pathIndex ≠ -1) :
    (s.tokens c).get? i = some t' ∧
    (moveCaptured board s t P = some c →
      t'.isFinished = true ∨ posMatches board t' P = false) := by
  rw [moveNewTokens_other hc] at hg'
  by_cases hcap : moveCaptured board s t P = some c
  · rw [if_pos hcap] at hg'
    unfold captureReset at hg'
    rw [List.get?_map] at hg'
    rcases hg0 : (s.tokens c).get? i with _ | t0
    · rw [hg0] at hg'
      cases hg'
    · rw [hg0] at hg'
      injection hg' with h2
      dsimp only at h2
      by_cases hbf : (t0.pathIndex == -1 || t0.isFinished) = true
      · rw [if_pos hbf] at h2
        subst h2
        refine ⟨rfl, fun _ => Or.inl ?_⟩
        rw [Bool.or_eq_true, beq_iff_eq] at hbf
        rcases hbf with hbf | hbf
        · exact absurd hbf hne
        · exact hbf
      · rw [if_neg hbf] at h2
        by_cases hpm : posMatches board t0 P = true
        · rw [if_pos hpm] at h2
          exact absurd (by rw [← h2]) hne
        · rw [if_neg hpm] at h2
          subst h2
          exact ⟨rfl, fun _ => Or.inr (by simpa using hpm)⟩
  · rw [if_neg hcap] at hg'
    exact ⟨hg', fun hx => absurd hx hcap⟩

/-- A token of the mover after a move is either an untouched old token or
the moved token itself. -/
lemma cur_token_post {board : Board} {s : GameState} {tid : Nat} {t : TokenState}
    {P : Position} {i : Nat} {t' : TokenState}
    (hg' : (moveNewTokens board s tid t P s.currentPlayer).get? i = some t') :
    ∃ t0, (s.tokens s.currentPlayer).get? i = some t0 ∧
      ((t0.id ≠ tid ∧ t' = t0) ∨
       (t0.id = tid ∧
        t' = { t0 with pathIndex := moveDest t s.diceValue, isFinished := moveFin board s t })) := by
  rw [moveNewTokens_cur] at hg'
  unfold moverUpdate at hg'
  rw [List.get?_map] at hg'
  rcases hg0 : (s.tokens s.currentPlayer).get? i with _ | t0
  · rw [hg0] at hg'
    cases hg'
  · rw [hg0] at hg'
    injection hg' with h2
    dsimp only at h2
    by_cases hid : t0.id = tid
    · refine ⟨t0, rfl, Or.inr ⟨hid, ?_⟩⟩
      rw [← h2, if_pos (by simpa using hid)]
    · refine ⟨t0, rfl, Or.inl ⟨hid, ?_⟩⟩
      rw [← h2, if_neg (by simpa using hid)]

/-- The rendered position of the moved token (when it did not finish) is
the destination cell. -/
lemma moved_token_pos {board : Board} {s : GameState} {tid : Nat} {t : TokenState}
    {P : Position} {i : Nat} {t0 : TokenState} {q : Position}
    (hb : ∀ c, 0 < (board c).path.length) (hwf : WFState board s)
    (hget : (s.tokens s.currentPlayer).get? tid = some t)
    (hcan : canMoveToken board t s.diceValue = true)
    (hP : pathAt (board s.currentPlayer).path (moveDest t s.diceValue) = some P)
    (hg0 : (s.tokens s.currentPlayer).get? i = some t0)
    (hFin : moveFin board s t = false)
    (hq : getTokenPosition board
      { t0 with pathIndex := moveDest t s.diceValue, isFinished := moveFin board s t } =
      some q) :
    q = P := by
  have hpi : -1 ≤ t.pathIndex := hwf.lb _ _ _ hget
  have hdb := moveDest_bounds hcan hpi (hb t.color)
  have hcol0 : t0.color = s.currentPlayer := hwf.colors _ _ _ hg0
  have hrec_fin :
      ({ t0 with pathIndex := moveDest t s.diceValue, isFinished := moveFin board s t } :
        TokenState).isFinished = false := hFin
  have hrec_ne :
      ({ t0 with pathIndex := moveDest t s.diceValue, isFinished := moveFin board s t } :
        TokenState).pathIndex ≠ -1 := by
    dsimp only
    omega
  rw [getTokenPosition_onboard hrec_fin hrec_ne] at hq
  dsimp only at hq
  rw [hcol0, hP] at hq
  injection hq with h
  exact h.symm

/-- An opponent token that survives on the board at a non-safe, non-finishing
destination it occupies is impossible: the capture scan would have fired on
its colour and reset it. -/
lemma survived_at_unsafe_dest {board : Board} {s : GameState} {t : TokenState}
    {P : Position} {j : Nat} (hgeom : BoardGeom board) (hwf : WFState board s)
    (hpair : PairINV board s) (hPj : (board s.currentPlayer).path.get? j = some P)
    (hFin : moveFin board s t = false) (hsafe2 : P.isSafe = false)
    {c : PlayerColor} {i : Nat} {t2 : TokenState} {q2 : Position}
    (hc : c ≠ s.currentPlayer) (hg0 : (s.tokens c).get? i = some t2)
    (himp : moveCaptured board s t P = some c →
      t2.isFinished = true ∨ posMatches board t2 P = false)
    (hne2 : t2.pathIndex ≠ -1) (hfin2 : t2.isFinished = false)
    (hq2 : getTokenPosition board t2 = some q2) (hcl2 : closeTo q2 P = true) : False := by
  have hhas : colorHasTokenAt board s.tokens c P = true := by
    rw [colorHasTokenAt_iff]
    exact ⟨t2, List.get?_mem hg0, hne2, hfin2, q2, hq2, hcl2⟩
  have hisSome := checkForCapture_isSome hsafe2 hc hhas
  obtain ⟨cc, hcc⟩ := Option.isSome_iff_exists.mp hisSome
  have hccc := capture_unique hgeom hwf hpair hPj hcc hc hg0 hne2 hfin2 hq2 hcl2
  have hcap : moveCaptured board s t P = some c := by
    unfold moveCaptured
    rw [if_neg (by simp [hFin]), hcc, hccc]
  rcases himp hcap with hf | hpm
  · rw [hfin2] at hf
    cases hf
  · have hpm2 : closeTo q2 P = false := by
      unfold posMatches at hpm
      rw [hq2] at hpm
      exact hpm
    rw [hcl2] at hpm2
    cases hpm2

/-- The pairwise occupancy invariant survives an accepted move. -/
lemma pair_moveResult {board : Board} {s : GameState} {tid : Nat} {t : TokenState}
    {P : Position} (hgeom : BoardGeom board) (hwf : WFState board s)
    (hpair : PairINV board s)
    (hget : (s.tokens s.currentPlayer).get? tid = some t)
    (hcan : canMoveToken board t s.diceValue = true)
    (hP : pathAt (board s.currentPlayer).path (moveDest t s.diceValue) = some P) :
    PairINV board (moveResult board s tid t P) := by
  have hb := hgeom.nonempty
  have hPj : (board s.currentPlayer).path.get? (moveDest t s.diceValue).toNat = some P :=
    (pathAt_get? hP).1
  intro c1 c2 i1 i2 t1' t2' q1 q2 hne hgA hgB hA1 hA2 hB1 hB2 hq1 hq2 hcl
  rw [moveResult_tokens] at hgA hgB
  by_cases hc1 : c1 = s.currentPlayer
  · by_cases hc2 : c2 = s.currentPlayer
    · exact absurd (hc1.trans hc2.symm) hne
    · obtain ⟨hgB0, hBimp⟩ := other_token_pre hc2 hgB hB1
      subst hc1
      obtain ⟨t0, hgA0, hcase⟩ := cur_token_post hgA
      rcases hcase with ⟨-, hEq⟩ | ⟨hid, hEq⟩
      · subst hEq
        exact hpair _ _ i1 i2 t1' t2' q1 q2 hne hgA0 hgB0 hA1 hA2 hB1 hB2 hq1 hq2 hcl
      · have hFin : moveFin board s t = false := by
          have h5 : t1'.isFinished = moveFin board s t := by
            rw [hEq]
          rw [hA2] at h5
          exact h5.symm
        have hq1P : q1 = P := by
          apply moved_token_pos hb hwf hget hcan hP hgA0 hFin
          rw [← hEq]
          exact hq1
        by_cases hsafe : P.isSafe = true
        · rw [hq1P]
          exact hsafe
        · exfalso
          have hsafe2 : P.isSafe = false := by simpa using hsafe
          have hclB : closeTo q2 P = true := by
            rw [closeTo_symm, ← hq1P]
            exact hcl
          exact survived_at_unsafe_dest hgeom hwf hpair hPj hFin hsafe2 hc2 hgB0 hBimp
            hB1 hB2 hq2 hclB
  · obtain ⟨hgA0, hAimp⟩ := other_token_pre hc1 hgA hA1
    by_cases hc2 : c2 = s.currentPlayer
    · subst hc2
      obtain ⟨t0, hgB0, hcase⟩ := cur_token_post hgB
      rcases hcase with ⟨-, hEq⟩ | ⟨hid, hEq⟩
      · subst hEq
        exact hpair _ _ i1 i2 t1' t2' q1 q2 hne hgA0 hgB0 hA1 hA2 hB1 hB2 hq1 hq2 hcl
      · have hFin : moveFin board s t = false := by
          have h5 : t2'.isFinished = moveFin board s t := by
            rw [hEq]
          rw [hB2] at h5
          exact h5.symm
        have hq2P : q2 = P := by
          apply moved_token_pos hb hwf hget hcan hP hgB0 hFin
          rw [← hEq]
          exact hq2
        have hclA : closeTo q1 P = true := by
          rw [← hq2P]
          exact hcl
        have hq1cell := (token_cell hwf hgA0 hA1 hA2 hq1).1
        have hq1P : q1 = P := hgeom.cellSep _ _ _ _ _ _ hq1cell hPj hclA
        rw [hq1P]
        by_cases hsafe : P.isSafe = true
        · exact hsafe
        · exfalso
          have hsafe2 : P.isSafe = false := by simpa using hsafe
          exact survived_at_unsafe_dest hgeom hwf hpair hPj hFin hsafe2 hc1 hgA0 hAimp
            hA1 hA2 hq1 hclA
    · obtain ⟨hgB0, -⟩ := other_token_pre hc2 hgB hB1
      exact hpair c1 c2 i1 i2 t1' t2' q1 q2 hne hgA0 hgB0 hA1 hA2 hB1 hB2 hq1 hq2 hcl

/-- The pairwise occupancy invariant holds initially: no token is on the
board. -/
lemma pair_init {board : Board} : PairINV board initState := by
  intro c1 c2 i1 i2 t1 t2 q1 q2 hne hg1 hg2 hA1 hA2 hB1 hB2 hq1 hq2 hcl
  exfalso
  rw [show initState.tokens = initTokens from rfl, initTokens_get?] at hg1
  split at hg1
  · injection hg1 with h
    apply hA1
    rw [← h]
  · cases hg1

/-- The pairwise occupancy invariant holds in every reachable state. -/
theorem reachable_pair {board : Board} {s : GameState} (hgeom : BoardGeom board)
    (hr : Reachable board s) : PairINV board s := by
  induction hr with
  | init => exact pair_init
  | roll hr h1 h6 ih =>
    intro c1 c2 i1 i2 t1 t2 q1 q2 hne hg1 hg2
    rw [rollDice_tokens] at hg1 hg2
    exact ih c1 c2 i1 i2 t1 t2 q1 q2 hne hg1 hg2
  | move hr hok ih =>
    rcases moveToken_ok_cases hok with hs | ⟨t, P, hget, hroll, hwin, hcan, hP, hs⟩
    · rw [hs]
      exact ih
    · rw [hs]
      exact pair_moveResult hgeom (reachable_wf hgeom.nonempty hr) ih hget hcan hP

/--
C3: on an accepted move to a safe destination no opponent token is touched;
on an accepted move to a non-safe destination, every opponent token that is
on the board, not finished, and rendered at the destination cell is sent
back to base (path coordinate `-1`).
-/
theorem C3_capture_rules (board : Board) (hgeom : BoardGeom board)
    (s : GameState) (hr : Reachable board s) (tid : Nat) (t : TokenState)
    (hroll : s.hasRolled = true) (hwin : s.winner = none)
    (hget : (s.tokens s.currentPlayer).get? tid = some t)
    (hcan : canMoveToken board t s.diceValue = true) :
    ∃ s' P, moveToken board s tid = Except.ok s' ∧
      pathAt (board s.currentPlayer).path (moveDest t s.diceValue) = some P ∧
      (P.isSafe = true → ∀ c, c ≠ s.currentPlayer → s'.tokens c = s.tokens c) ∧
      (P.isSafe = false → ∀ c, c ≠ s.currentPlayer → ∀ i t2 q2,
        (s.tokens c).get? i = some t2 → t2.pathIndex ≠ -1 → t2.isFinished = false →
        getTokenPosition board t2 = some q2 → closeTo q2 P = true →
        (s'.tokens c).get? i = some { t2 with pathIndex := -1 }) := by
  have hwf := reachable_wf hgeom.nonempty hr
  have hpair := reachable_pair hgeom hr
  have hcol : t.color = s.currentPlayer := hwf.colors _ _ _ hget
  have hpi : -1 ≤ t.pathIndex := hwf.lb _ _ _ hget
  obtain ⟨P, hP⟩ := pathAt_moveDest_some hcan hpi (by rw [hcol]; exact hgeom.nonempty _)
  rw [hcol] at hP
  have hPj : (board s.currentPlayer).path.get? (moveDest t s.diceValue).toNat = some P :=
    (pathAt_get? hP).1
  refine ⟨moveResult board s tid t P, P,
    moveToken_run board s tid t P hroll hwin hget hcan hP, hP, ?_, ?_⟩
  · intro hsafe c hc
    have hcap : moveCaptured board s t P = none := by
      unfold moveCaptured
      split
      · rfl
      · exact checkForCapture_safe hsafe
    rw [moveResult_tokens, moveNewTokens_other hc, if_neg (by simp [hcap])]
  · intro hsafe c hc i t2 q2 hg2 hne2 hfin2 hq2 hcl2
    by_cases hFin : moveFin board s t = true
    · exfalso
      have hdest : moveDest t s.diceValue = ((board s.currentPlayer).path.length : Int) - 1 := by
        simpa [moveFin] using hFin
      have hcell := token_cell hwf hg2 hne2 hfin2 hq2
      have hPlast : (board s.currentPlayer).path.get?
          ((board s.currentPlayer).path.length - 1) = some P := by
        have h9 : (moveDest t s.diceValue).toNat = (board s.currentPlayer).path.length - 1 := by
          have := hgeom.nonempty s.currentPlayer
          omega
        rw [← h9]
        exact hPj
      have hhp := hgeom.homePrivate s.currentPlayer c (Ne.symm hc) P t2.pathIndex.toNat q2
        hPlast hcell.1 hcell.2
      rw [closeTo_symm] at hhp
      rw [hcl2] at hhp
      cases hhp
    · have hFin2 : moveFin board s t = false := by simpa using hFin
      have hhas : colorHasTokenAt board s.tokens c P = true := by
        rw [colorHasTokenAt_iff]
        exact ⟨t2, List.get?_mem hg2, hne2, hfin2, q2, hq2, hcl2⟩
      have hisSome := checkForCapture_isSome hsafe hc hhas
      obtain ⟨cc, hcc⟩ := Option.isSome_iff_exists.mp hisSome
      have hccc := capture_unique hgeom hwf hpair hPj hcc hc hg2 hne2 hfin2 hq2 hcl2
      have hcap : moveCaptured board s t P = some c := by
        unfold moveCaptured
        rw [if_neg (by simp [hFin2]), hcc, hccc]
      rw [moveResult_tokens, moveNewTokens_other hc, if_pos hcap]
      unfold captureReset
      rw [List.get?_map, hg2]
      have hbf : (t2.pathIndex == -1 || t2.isFinished) = false := by
        simp [hne2, hfin2]
      have hpm : posMatches board t2 P = true := by
        unfold posMatches
        rw [hq2]
        exact hcl2
      simp only [Option.map_some']
      rw [if_neg (by simp [hbf]), if_pos hpm]

/-- Lookup in a two-element list. -/
lemma get?_pair {a b x : Position} {i : Nat} (h : ([a, b] : List Position).get? i = some x) :
    (i = 0 ∧ x = a) ∨ (i = 1 ∧ x = b) := by
  rcases i with _ | _ | n
  · refine Or.inl ⟨rfl, ?_⟩
    injection h with h2
    exact h2.symm
  · refine Or.inr ⟨rfl, ?_⟩
    injection h with h2
    exact h2.symm
  · cases h

/-- The two witness cells are further apart than the tolerance. -/
lemma closeTo_AB_false : closeTo cellA cellB = false := by
  have h1 : ¬(ratAbs (cellA.x - cellB.x) < Rat.divInt 1 10) := by
    rw [Rat.divInt_eq_div]
    show ¬(ratAbs ((0 : Rat) - 50) < _)
    unfold ratAbs
    rw [if_pos (by norm_num)]
    norm_num
  simp [closeTo, h1]

/-- The witness board satisfies the geometric board assumptions. -/
lemma sampleBoard_geom : BoardGeom sampleBoard := by
  constructor
  · exact sampleBoard_nonempty
  · intro c1 i1 c2 i2 p q h1 h2 hcl
    have e1 : (sampleBoard c1).path = [cellA, cellB] := by cases c1 <;> rfl
    have e2 : (sampleBoard c2).path = [cellA, cellB] := by cases c2 <;> rfl
    rw [e1] at h1
    rw [e2] at h2
    rcases get?_pair h1 with ⟨-, hp⟩ | ⟨-, hp⟩ <;> rcases get?_pair h2 with ⟨-, hq⟩ | ⟨-, hq⟩ <;>
      subst hp <;> subst hq
    · rfl
    · rw [closeTo_AB_false] at hcl
      cases hcl
    · rw [closeTo_symm, closeTo_AB_false] at hcl
      cases hcl
    · rfl
  · intro c1 c2 hne p i q hp hq hlt
    have e1 : (sampleBoard c1).path = [cellA, cellB] := by cases c1 <;> rfl
    have e2 : (sampleBoard c2).path = [cellA, cellB] := by cases c2 <;> rfl
    have hp' : ([cellA, cellB] : List Position).get? 1 = some p := by
      rw [e1] at hp
      exact hp
    have hlt' : i + 1 < 2 := by
      rw [e2] at hlt
      exact hlt
    have hq' : ([cellA, cellB] : List Position).get? 0 = some q := by
      rw [e2] at hq
      have hi : i = 0 := by omega
      rw [hi] at hq
      exact hq
    injection hp' with h1
    injection hq' with h2
    rw [← h1, ← h2, closeTo_symm]
    exact closeTo_AB_false

/-- Witness for C3: red rolled 6 at the start and moves token 0 onto the
first path cell. -/
theorem C3_capture_rules_witness :
    (rolledState.hasRolled = true ∧ rolledState.winner = none ∧
      (rolledState.tokens rolledState.currentPlayer).get? 0 = some witTok ∧
      canMoveToken sampleBoard witTok rolledState.diceValue = true) ∧
    (∃ s' P, moveToken sampleBoard rolledState 0 = Except.ok s' ∧
      pathAt (sampleBoard rolledState.currentPlayer).path
        (moveDest witTok rolledState.diceValue) = some P ∧
      (P.isSafe = true → ∀ c, c ≠ rolledState.currentPlayer →
        s'.tokens c = rolledState.tokens c) ∧
      (P.isSafe = false → ∀ c, c ≠ rolledState.currentPlayer → ∀ i t2 q2,
        (rolledState.tokens c).get? i = some t2 → t2.pathIndex ≠ -1 →
        t2.isFinished = false →
        getTokenPosition sampleBoard t2 = some q2 → closeTo q2 P = true →
        (s'.tokens c).get? i = some { t2 with pathIndex := -1 })) :=
  ⟨⟨by decide, by decide, by decide, by decide⟩,
    C3_capture_rules sampleBoard sampleBoard_geom rolledState rolledState_reachable 0 witTok
      (by decide) (by decide) (by decide) (by decide)⟩

/--
C7 counterexample: in the first socket variant, the open handler of a fresh
connection sends `AUTH` and then immediately `JOIN_ROOM`, although no server
message (in particular no authentication acknowledgment) has been received
on that connection — `connect` itself sends nothing, and the open event is
the first thing that happens after it.
-/
theorem C7_counterexample :
    (GameSocketV1.step (GameSocketV1.connect GameSocketV1.init ("abcd") (some ("tok"))).1
        (SocketEvent.openEv none)).2.sent =
      [ClientMessage.AUTH ("tok"), ClientMessage.JOIN_ROOM (("abcd").toUpper)] ∧
    (GameSocketV1.connect GameSocketV1.init ("abcd") (some ("tok"))).2.sent = [] := by
  exact ⟨rfl, rfl⟩

/--
C7 amended: the second socket variant sends `JOIN_ROOM` only while handling
an `AUTH_SUCCESS` message — hence never before an affirmative authentication
acknowledgment on the current transport connection, across any number of
retries — and `connect` itself sends nothing; the first (legacy) variant, in
contrast, sends `JOIN_ROOM` directly from its open handler before any server
message.
-/
theorem C7_join_only_after_auth_ack :
    (∀ (s : GameSocketV2.State) (e : SocketEvent) (code : String),
      ClientMessage.JOIN_ROOM code ∈ (GameSocketV2.step s e).2.sent →
      (∃ uid, e = SocketEvent.msgEv (ServerMessage.AUTH_SUCCESS uid)) ∧
      (GameSocketV2.step s e).1.isAuthenticated = true) ∧
    (∀ (s : GameSocketV2.State) (code : String) (m : ClientMessage),
      m ∈ (GameSocketV2.connect s code).2.sent → False) ∧
    ((GameSocketV1.step (GameSocketV1.connect GameSocketV1.init ("ABCD") (some ("t"))).1
        (SocketEvent.openEv none)).2.sent =
      [ClientMessage.AUTH ("t"), ClientMessage.JOIN_ROOM (("ABCD").toUpper)]) := by
  refine ⟨?_, ?_, rfl⟩
  case refine_2 =>
    intro s code m hmem
    simp [GameSocketV2.connect, GameSocketV2.disconnect, GameSocketV2.createConnection,
      mergeOutput, noOutput] at hmem
  · intro s e code hmem
    cases e with
    | openEv tok =>
      exfalso
      cases tok with
      | none => simp [GameSocketV2.step, GameSocketV2.disconnect, noOutput] at hmem
      | some t => simp [GameSocketV2.step, GameSocketV2.send, noOutput] at hmem
    | msgEv m =>
      cases m with
      | AUTH_SUCCESS uid =>
        refine ⟨⟨uid, rfl⟩, ?_⟩
        rcases hp : s.pendingRoomCode with _ | p <;> simp [GameSocketV2.step, hp]
      | stateMsg snap =>
        exfalso
        simp [GameSocketV2.step, noOutput] at hmem
      | ERROR msg =>
        exfalso
        simp [GameSocketV2.step, noOutput] at hmem
      | malformed =>
        exfalso
        simp [GameSocketV2.step, noOutput] at hmem
    | closeEv =>
      exfalso
      simp only [GameSocketV2.step] at hmem
      unfold GameSocketV2.handleDisconnect at hmem
      dsimp only at hmem
      split at hmem <;> simp [noOutput] at hmem
    | timerEv =>
      exfalso
      simp only [GameSocketV2.step] at hmem
      unfold GameSocketV2.createConnection at hmem
      dsimp only at hmem
      split at hmem <;> simp [noOutput] at hmem

/-- Witness for the amended C7: an authenticated-pending socket receiving
`AUTH_SUCCESS` does send `JOIN_ROOM`, and the theorem attributes it to that
acknowledgment. -/
theorem C7_join_only_after_auth_ack_witness :
    (ClientMessage.JOIN_ROOM ("ABCD") ∈
      (GameSocketV2.step v2AtThree
        (SocketEvent.msgEv (ServerMessage.AUTH_SUCCESS ("u1")))).2.sent) ∧
    ((∃ uid, SocketEvent.msgEv (ServerMessage.AUTH_SUCCESS ("u1")) =
        SocketEvent.msgEv (ServerMessage.AUTH_SUCCESS uid)) ∧
      (GameSocketV2.step v2AtThree
        (SocketEvent.msgEv (ServerMessage.AUTH_SUCCESS ("u1")))).1.isAuthenticated = true) :=
  ⟨by decide,
    C7_join_only_after_auth_ack.1 v2AtThree
      (SocketEvent.msgEv (ServerMessage.AUTH_SUCCESS ("u1"))) ("ABCD") (by decide)⟩

/--
C8: on transport loss with a room code retained, both socket variants retry
at most 5 times (`maxReconnectAttempts = 5`), scheduling the k-th retry
after `2000 * k` milliseconds; once the attempts are exhausted they report
`disconnected` and surface the terminal user-visible message instead of
scheduling any further retry, and no event ever pushes the attempt counter
beyond 5.
-/
theorem C8_bounded_linear_backoff :
    maxReconnectAttempts = 5 ∧
    (∀ s : GameSocketV2.State, s.roomCode.isSome = true →
      s.reconnectAttempts < maxReconnectAttempts →
      (GameSocketV2.handleDisconnect s).1.reconnectAttempts = s.reconnectAttempts + 1 ∧
      (GameSocketV2.handleDisconnect s).1.reconnectTimer =
        some (2000 * (s.reconnectAttempts + 1)) ∧
      (GameSocketV2.handleDisconnect s).2.connChanges = [ConnectionState.reconnecting] ∧
      (GameSocketV2.handleDisconnect s).2.uiErrors = []) ∧
    (∀ s : GameSocketV2.State, maxReconnectAttempts ≤ s.reconnectAttempts →
      (GameSocketV2.handleDisconnect s).1.reconnectAttempts = s.reconnectAttempts ∧
      (GameSocketV2.handleDisconnect s).1.reconnectTimer = s.reconnectTimer ∧
      (GameSocketV2.handleDisconnect s).2.connChanges = [ConnectionState.disconnected] ∧
      (GameSocketV2.handleDisconnect s).2.uiErrors =
        ["Connection lost. Please rejoin the game."]) ∧
    (∀ (s : GameSocketV2.State) (e : SocketEvent), s.reconnectAttempts ≤ 5 →
      (GameSocketV2.step s e).1.reconnectAttempts ≤ 5) ∧
    (∀ s : GameSocketV1.State, s.roomCode.isSome = true →
      s.reconnectAttempts < maxReconnectAttempts →
      (GameSocketV1.handleDisconnect s).1.reconnectAttempts = s.reconnectAttempts + 1 ∧
      (GameSocketV1.handleDisconnect s).1.reconnectTimer =
        some (2000 * (s.reconnectAttempts + 1)) ∧
      (GameSocketV1.handleDisconnect s).2.connChanges = [ConnectionState.reconnecting]) ∧
    (∀ s : GameSocketV1.State, maxReconnectAttempts ≤ s.reconnectAttempts →
      (GameSocketV1.handleDisconnect s).1.reconnectAttempts = s.reconnectAttempts ∧
      (GameSocketV1.handleDisconnect s).2.connChanges = [ConnectionState.disconnected] ∧
      (GameSocketV1.handleDisconnect s).2.uiErrors =
        ["Connection lost. Please rejoin the game."]) := by
  refine ⟨rfl, ?_, ?_, ?_, ?_, ?_⟩
  · intro s h1 h2
    unfold GameSocketV2.handleDisconnect
    rw [if_pos (by dsimp only; rw [Bool.and_eq_true, decide_eq_true_eq]; exact ⟨h1, h2⟩)]
    exact ⟨rfl, rfl, rfl, rfl⟩
  · intro s h1
    have h1' : 5 ≤ s.reconnectAttempts := h1
    unfold GameSocketV2.handleDisconnect
    rw [if_neg (by
      intro hcond
      rw [Bool.and_eq_true, decide_eq_true_eq] at hcond
      have h3 := hcond.2
      simp only [maxReconnectAttempts] at h3
      omega)]
    refine ⟨rfl, rfl, rfl, ?_⟩
    show (if decide (maxReconnectAttempts ≤ _) = true then _ else _) = _
    rw [if_pos (by dsimp only; exact decide_eq_true h1)]
  · intro s e hle
    cases e with
    | openEv tok =>
      cases tok with
      | none =>
        simp only [GameSocketV2.step]
        unfold GameSocketV2.disconnect
        dsimp only
        split
        · simp [maxReconnectAttempts]
        · simpa using hle
      | some t => simpa [GameSocketV2.step] using hle
    | msgEv m =>
      cases m with
      | AUTH_SUCCESS uid =>
        rcases hp : s.pendingRoomCode with _ | p <;> simpa [GameSocketV2.step, hp] using hle
      | stateMsg snap => simpa [GameSocketV2.step] using hle
      | ERROR msg => simpa [GameSocketV2.step] using hle
      | malformed => simpa [GameSocketV2.step] using hle
    | closeEv =>
      simp only [GameSocketV2.step]
      unfold GameSocketV2.handleDisconnect
      dsimp only
      split
      · rename_i hcond
        rw [Bool.and_eq_true, decide_eq_true_eq] at hcond
        have h3 := hcond.2
        simp only [maxReconnectAttempts] at h3
        dsimp only
        omega
      · simpa using hle
    | timerEv =>
      simp only [GameSocketV2.step]
      unfold GameSocketV2.createConnection
      dsimp only
      split <;> simpa using hle
  · intro s h1 h2
    unfold GameSocketV1.handleDisconnect
    rw [if_pos (by rw [Bool.and_eq_true, decide_eq_true_eq]; exact ⟨h1, h2⟩)]
    exact ⟨rfl, rfl, rfl⟩
  · intro s h1
    have h1' : 5 ≤ s.reconnectAttempts := h1
    unfold GameSocketV1.handleDisconnect
    rw [if_neg (by
      intro hcond
      rw [Bool.and_eq_true, decide_eq_true_eq] at hcond
      have h3 := hcond.2
      simp only [maxReconnectAttempts] at h3
      omega)]
    refine ⟨rfl, rfl, ?_⟩
    show (if decide (maxReconnectAttempts ≤ _) = true then _ else _) = _
    rw [if_pos (decide_eq_true h1)]

/-- Witness for C8: a socket with a room and two prior attempts schedules
its third retry after 6000 ms; a socket with five attempts gives up with the
terminal message. -/
theorem C8_bounded_linear_backoff_witness :
    (v2AtThree.roomCode.isSome = true ∧ v2AtThree.reconnectAttempts < maxReconnectAttempts) ∧
    ((GameSocketV2.handleDisconnect v2AtThree).1.reconnectAttempts =
        v2AtThree.reconnectAttempts + 1 ∧
      (GameSocketV2.handleDisconnect v2AtThree).1.reconnectTimer =
        some (2000 * (v2AtThree.reconnectAttempts + 1)) ∧
      (GameSocketV2.handleDisconnect v2AtThree).2.connChanges = [ConnectionState.reconnecting] ∧
      (GameSocketV2.handleDisconnect v2AtThree).2.uiErrors = []) ∧
    ((GameSocketV2.handleDisconnect { v2AtThree with reconnectAttempts := 5 }).2.uiErrors =
      ["Connection lost. Please rejoin the game."]) :=
  ⟨⟨by decide, by decide⟩,
    C8_bounded_linear_backoff.2.1 v2AtThree (by decide) (by decide),
    (C8_bounded_linear_backoff.2.2.1 { v2AtThree with reconnectAttempts := 5 }
      (by decide)).2.2.2⟩

/--
C9 counterexample: in the second socket variant, receiving a well-formed
full-state snapshot does not reset the reconnection attempt counter — a
socket with three recorded attempts still has three after the snapshot, not
zero as the claim states.
-/
theorem C9_counterexample :
    (GameSocketV2.step v2AtThree
        (SocketEvent.msgEv (ServerMessage.stateMsg snapR))).2.stateUpdates = 1 ∧
    (GameSocketV2.step v2AtThree
        (SocketEvent.msgEv (ServerMessage.stateMsg snapR))).1.reconnectAttempts = 3 ∧
    (GameSocketV2.step v2AtThree
        (SocketEvent.msgEv (ServerMessage.stateMsg snapR))).1.reconnectAttempts ≠ 0 := by
  exact ⟨rfl, rfl, by decide⟩

/--
C9 amended: the first socket variant resets the attempt counter to zero as
soon as the transport opens (so the counter is already zero by the time any
snapshot arrives on that connection); the second variant never resets it on
snapshot receipt — only an explicit `connect` call resets it.
-/
theorem C9_attempt_counter_reset :
    (∀ (s : GameSocketV1.State) (tok : Option String),
      (GameSocketV1.step s (SocketEvent.openEv tok)).1.reconnectAttempts = 0) ∧
    (∀ (s : GameSocketV2.State) (snap : ServerSnapshot),
      (GameSocketV2.step s
        (SocketEvent.msgEv (ServerMessage.stateMsg snap))).1.reconnectAttempts =
        s.reconnectAttempts) ∧
    (∀ (s : GameSocketV2.State) (code : String),
      (GameSocketV2.connect s code).1.reconnectAttempts = 0) := by
  refine ⟨fun s tok => rfl, fun s snap => rfl, fun s code => ?_⟩
  unfold GameSocketV2.connect GameSocketV2.createConnection GameSocketV2.disconnect
  dsimp only
  rfl
